import Mathlib

/-!
Verification development for the BDA_lab AutoML repository.

The development shallowly embeds the data model and the operations of
`src/data_preprocessing.py`, `src/financial_data.py` and
`src/model_manager.py`:

* a pandas float cell is modelled by `FVal`, an extended rational that
  carries the IEEE behaviours the code relies on (NaN propagation,
  division by zero producing a signed infinity, `NaN` comparisons being
  false);
* a DataFrame is a `Table`, an ordered list of named typed columns;
* the pandas primitives used by the code (`rolling.mean`, `rolling.std`,
  `ewm.mean`, `diff`, `pct_change`, `shift`, `fillna`, `dropna`) are
  defined over lists of `FVal`;
* routines supplied wholesale by external libraries whose numeric output
  no verified property depends on (the square root inside a standard
  deviation, sklearn's univariate score functions, `train_test_split`,
  `KNNImputer`) are parameters of the definitions that call them.
-/

namespace BDA

/-- A pandas float cell: NaN, a signed infinity, or a finite rational.
`inf true` is `+inf`, `inf false` is `-inf`. -/
inductive FVal where
  | nan : FVal
  | inf : Bool → FVal
  | fin : ℚ → FVal
deriving DecidableEq, Repr

namespace FVal

/-- Is the cell missing (NaN)?  Infinities are not null in pandas. -/
def isNan : FVal → Bool
  | nan => true
  | _ => false

/-- IEEE addition on extended rationals. -/
def add : FVal → FVal → FVal
  | nan, _ => nan
  | _, nan => nan
  | inf s, inf t => if s = t then inf s else nan
  | inf s, fin _ => inf s
  | fin _, inf t => inf t
  | fin a, fin b => fin (a + b)

/-- IEEE negation. -/
def neg : FVal → FVal
  | nan => nan
  | inf s => inf (!s)
  | fin a => fin (-a)

/-- IEEE subtraction. -/
def sub (x y : FVal) : FVal := add x (neg y)

/-- IEEE multiplication (`inf * 0 = NaN`). -/
def mul : FVal → FVal → FVal
  | nan, _ => nan
  | _, nan => nan
  | inf s, inf t => inf (s = t)
  | inf s, fin a => if a = 0 then nan else inf (s = decide (0 < a))
  | fin a, inf t => if a = 0 then nan else inf (t = decide (0 < a))
  | fin a, fin b => fin (a * b)

/-- IEEE division: `x / 0` is a signed infinity for `x ≠ 0`, `0 / 0` is
NaN, finite over infinite is zero. -/
def div : FVal → FVal → FVal
  | nan, _ => nan
  | _, nan => nan
  | inf _, inf _ => nan
  | inf s, fin b => if b < 0 then inf (!s) else inf s
  | fin _, inf _ => fin 0
  | fin a, fin b =>
      if b = 0 then (if a = 0 then nan else inf (decide (0 < a))) else fin (a / b)

/-- IEEE strict less-than: any comparison with NaN is false. -/
def blt : FVal → FVal → Bool
  | nan, _ => false
  | _, nan => false
  | inf s, inf t => !s && t
  | inf s, fin _ => !s
  | fin _, inf t => t
  | fin a, fin b => decide (a < b)

/-- Square root, parametric in the rational approximation `msqrt` used
for nonnegative finite arguments (the exact value is irrational and no
verified property depends on it). -/
def sqrtF (msqrt : ℚ → ℚ) : FVal → FVal
  | nan => nan
  | inf s => if s then inf true else nan
  | fin a => if a < 0 then nan else fin (msqrt a)

end FVal

/-! ## Pandas primitives on float columns -/

/-- Sum of a list of cells (NaN and infinities propagate as in IEEE). -/
def sumF (xs : List FVal) : FVal := xs.foldr FVal.add (FVal.fin 0)

/-- The length-`w` window of cells ending at index `i`
(`xs[i-w+1 .. i]`), as used by `rolling(window=w)`. -/
def window (w i : ℕ) (xs : List FVal) : List FVal :=
  (xs.drop (i + 1 - w)).take w

/-- `Series.rolling(window=w).mean()`: NaN before the window fills up,
otherwise the mean of the window (NaN inside the window propagates,
matching `min_periods = w`). -/
def rollingMean (w : ℕ) (xs : List FVal) : List FVal :=
  (List.range xs.length).map fun i =>
    if i + 1 < w then FVal.nan
    else FVal.div (sumF (window w i xs)) (FVal.fin w)

/-- `Series.rolling(window=w).std()` (sample standard deviation,
`ddof = 1`), parametric in the square-root routine. -/
def rollingStd (msqrt : ℚ → ℚ) (w : ℕ) (xs : List FVal) : List FVal :=
  (List.range xs.length).map fun i =>
    if i + 1 < w then FVal.nan
    else
      let ws := window w i xs
      let m := FVal.div (sumF ws) (FVal.fin w)
      let v := FVal.div (sumF (ws.map fun x => FVal.mul (FVal.sub x m) (FVal.sub x m)))
        (FVal.fin (w - 1))
      FVal.sqrtF msqrt v

/-- `Series.diff()`: NaN at index 0, `x[i] - x[i-1]` after. -/
def diffF : List FVal → List FVal
  | [] => []
  | x :: xs => FVal.nan :: List.zipWith FVal.sub xs (x :: xs)

/-- `Series.pct_change()`: NaN at index 0, `(x[i] - x[i-1]) / x[i-1]`
after. -/
def pctChange : List FVal → List FVal
  | [] => []
  | x :: xs => FVal.nan :: List.zipWith (fun a b => FVal.div (FVal.sub a b) b) xs (x :: xs)

/-- `Series.shift(-p)`: value `p` steps ahead, NaN once it runs off the
end of the series. -/
def shiftNeg (p : ℕ) (xs : List FVal) : List FVal :=
  xs.drop p ++ List.replicate (min p xs.length) FVal.nan

/-- One step of `Series.ewm(span).mean()` with `adjust=True` and
`ignore_na=False`: carry the decayed weighted numerator and the decayed
total weight, skipping NaN entries. -/
def ewmGo (c : ℚ) : FVal → ℚ → List FVal → List FVal
  | _, _, [] => []
  | num, den, x :: xs =>
      let num' := FVal.add (FVal.mul (FVal.fin c) num) (if x.isNan then FVal.fin 0 else x)
      let den' := c * den + (if x.isNan then 0 else 1)
      (if den' = 0 then FVal.nan else FVal.div num' (FVal.fin den')) :: ewmGo c num' den' xs

/-- `Series.ewm(span=s).mean()` (`adjust=True`): decay factor
`1 - 2/(s+1) = (s-1)/(s+1)`. -/
def ewmMean (s : ℕ) (xs : List FVal) : List FVal :=
  ewmGo (((s : ℚ) - 1) / ((s : ℚ) + 1)) (FVal.fin 0) 0 xs

/-- Replace NaN cells by `v`; `fillna(NaN)` leaves the column unchanged,
exactly as in pandas. -/
def fillnaF (v : FVal) (xs : List FVal) : List FVal :=
  xs.map fun x => if x.isNan then v else x

/-- Column mean as computed by `Series.mean()`: the mean of the non-null
cells, NaN when every cell is null. -/
def colMeanF (xs : List FVal) : FVal :=
  let ys := xs.filter fun x => !x.isNan
  if ys.isEmpty then FVal.nan else FVal.div (sumF ys) (FVal.fin ys.length)

/-! ## Tables -/

/-- A timestamp, modelled by the calendar projections the code extracts
from it (`dt.year`, `dt.month`, `dt.dayofweek`, `dt.quarter`). -/
structure DateVal where
  year : ℤ
  month : ℤ
  dayofweek : ℤ
  quarter : ℤ
deriving DecidableEq, Repr

/-- A DataFrame column: float dtype, object dtype (`None` cells are
null), or datetime dtype. -/
inductive ColData where
  | nums : List FVal → ColData
  | strs : List (Option String) → ColData
  | dates : List DateVal → ColData
deriving DecidableEq, Repr

namespace ColData

def isNums : ColData → Bool
  | nums _ => true
  | _ => false

def isStrs : ColData → Bool
  | strs _ => true
  | _ => false

def isDates : ColData → Bool
  | dates _ => true
  | _ => false

/-- Does the column contain at least one null cell
(`df[col].isnull().sum() > 0`)? -/
def hasNull : ColData → Bool
  | nums xs => xs.any FVal.isNan
  | strs xs => xs.any Option.isNone
  | dates _ => false

/-- Is the cell at row `i` null?  Out-of-range reads count as non-null
(they never occur on a well-formed frame). -/
def nullAt (c : ColData) (i : ℕ) : Bool :=
  match c with
  | nums xs => (xs.get? i).elim false FVal.isNan
  | strs xs => (xs.get? i).elim false Option.isNone
  | dates _ => false

/-- Keep exactly the rows whose index satisfies `keep`. -/
def keepRows (keep : ℕ → Bool) : ColData → ColData
  | nums xs => nums (((List.range xs.length).filter keep).filterMap xs.get?)
  | strs xs => strs (((List.range xs.length).filter keep).filterMap xs.get?)
  | dates xs => dates (((List.range xs.length).filter keep).filterMap xs.get?)

/-- Number of rows in the column. -/
def size : ColData → ℕ
  | nums xs => xs.length
  | strs xs => xs.length
  | dates xs => xs.length

end ColData

/-- A DataFrame: an ordered sequence of named columns. -/
abbrev Table := List (String × ColData)

namespace Table

/-- The first column named `n`, as pandas `df[n]` resolves it. -/
def lookup (t : Table) (n : String) : Option ColData :=
  List.lookup n t

/-- Column names, in order. -/
def colNames (t : Table) : List String := t.map Prod.fst

/-- Column assignment `df[n] = v`: replace the first column named `n`,
or append a new column at the end. -/
def setCol (t : Table) (n : String) (v : ColData) : Table :=
  match t with
  | [] => [(n, v)]
  | (m, c) :: rest =>
      if m = n then (n, v) :: rest else (m, c) :: setCol rest n v

/-- The float cells of column `n`, when it has float dtype. -/
def getNums (t : Table) (n : String) : Option (List FVal) :=
  match t.lookup n with
  | some (.nums xs) => some xs
  | _ => none

/-- The timestamps of column `n`, when it has datetime dtype. -/
def getDates (t : Table) (n : String) : Option (List DateVal) :=
  match t.lookup n with
  | some (.dates xs) => some xs
  | _ => none

/-- Names of the object-dtype columns
(`df.select_dtypes(include=['object']).columns`). -/
def objectCols (t : Table) : List String :=
  (t.filter fun p => p.2.isStrs).map Prod.fst

/-- Names of the numeric-dtype columns
(`df.select_dtypes(include=[np.number]).columns`). -/
def numericCols (t : Table) : List String :=
  (t.filter fun p => p.2.isNums).map Prod.fst

/-- Does row `i` contain a null in any column? -/
def rowHasNull (t : Table) (i : ℕ) : Bool :=
  t.any fun p => p.2.nullAt i

/-- Keep exactly the rows whose index satisfies `keep`, in every
column. -/
def keepRows (t : Table) (keep : ℕ → Bool) : Table :=
  t.map fun p => (p.1, p.2.keepRows keep)

/-- `df.dropna()`: remove every row that has a null in any column. -/
def dropna (t : Table) : Table :=
  t.keepRows fun i => !t.rowHasNull i

/-- `df.dropna(subset=[n])`: remove every row whose cell in column `n`
is null. -/
def dropnaSubset (t : Table) (n : String) : Table :=
  match t.lookup n with
  | some c => t.keepRows fun i => !c.nullAt i
  | none => t

/-- `df.drop(columns=[n])`. -/
def dropCol (t : Table) (n : String) : Table :=
  t.filter fun p => p.1 ≠ n

end Table

/-! ## Financial feature builder (`src/financial_data.py`) -/

/-- `delta.where(delta > 0, 0)` on `delta = close.diff()`: the positive
close-to-close changes (a NaN delta compares false and becomes 0). -/
def gainsOf (close : List FVal) : List FVal :=
  (diffF close).map fun d => if FVal.blt (FVal.fin 0) d then d else FVal.fin 0

/-- `-delta.where(delta < 0, 0)`: the negated negative close-to-close
changes. -/
def lossesOf (close : List FVal) : List FVal :=
  ((diffF close).map fun d => if FVal.blt d (FVal.fin 0) then d else FVal.fin 0).map FVal.neg

/-- The RSI block of `add_technical_indicators` (lines 96-101):
`delta = close.diff()`, 14-period rolling means of the positive and of
the negated negative deltas, `RSI = 100 - 100 / (1 + gain / loss)`. -/
def rsiOfClose (close : List FVal) : List FVal :=
  let gain := rollingMean 14 (gainsOf close)
  let loss := rollingMean 14 (lossesOf close)
  let rs := List.zipWith FVal.div gain loss
  rs.map fun r => FVal.sub (FVal.fin 100) (FVal.div (FVal.fin 100) (FVal.add (FVal.fin 1) r))

/-- `FinancialDataFetcher.add_technical_indicators`: add the indicator
columns in source order.  A missing or non-float price/volume column
raises inside the `try` block and the `except` handler returns the
input unchanged. -/
def addTechnicalIndicators (msqrt : ℚ → ℚ) (data : Table) : Table :=
  match data.getNums "Close", data.getNums "Volume", data.getNums "High",
      data.getNums "Low", data.getNums "Open" with
  | some close, some volume, some high, some low, some openP =>
      let df := data
      let df := df.setCol "SMA_20" (.nums (rollingMean 20 close))
      let df := df.setCol "SMA_50" (.nums (rollingMean 50 close))
      let df := df.setCol "SMA_200" (.nums (rollingMean 200 close))
      let ema12 := ewmMean 12 close
      let ema26 := ewmMean 26 close
      let df := df.setCol "EMA_12" (.nums ema12)
      let df := df.setCol "EMA_26" (.nums ema26)
      let macd := List.zipWith FVal.sub ema12 ema26
      let df := df.setCol "MACD" (.nums macd)
      let macdSignal := ewmMean 9 macd
      let df := df.setCol "MACD_Signal" (.nums macdSignal)
      let df := df.setCol "MACD_Histogram" (.nums (List.zipWith FVal.sub macd macdSignal))
      let df := df.setCol "RSI" (.nums (rsiOfClose close))
      let bbMiddle := rollingMean 20 close
      let bbStd := rollingStd msqrt 20 close
      let df := df.setCol "BB_Middle" (.nums bbMiddle)
      let df := df.setCol "BB_Upper"
        (.nums (List.zipWith FVal.add bbMiddle (bbStd.map fun s => FVal.mul s (FVal.fin 2))))
      let df := df.setCol "BB_Lower"
        (.nums (List.zipWith FVal.sub bbMiddle (bbStd.map fun s => FVal.mul s (FVal.fin 2))))
      let volumeSma := rollingMean 20 volume
      let df := df.setCol "Volume_SMA" (.nums volumeSma)
      let df := df.setCol "Volume_Ratio" (.nums (List.zipWith FVal.div volume volumeSma))
      let dailyReturn := pctChange close
      let df := df.setCol "Daily_Return" (.nums dailyReturn)
      let df := df.setCol "Price_Change" (.nums (diffF close))
      let df := df.setCol "Price_Change_Pct"
        (.nums (List.zipWith (fun c o => FVal.mul (FVal.div (FVal.sub c o) o) (FVal.fin 100))
          close openP))
      let df := df.setCol "Volatility" (.nums (rollingStd msqrt 20 dailyReturn))
      let hlSpread := List.zipWith FVal.sub high low
      let df := df.setCol "HL_Spread" (.nums hlSpread)
      let df := df.setCol "HL_Spread_Pct"
        (.nums (List.zipWith (fun s c => FVal.mul (FVal.div s c) (FVal.fin 100)) hlSpread close))
      df
  | _, _, _, _, _ => data

/-- `FinancialDataFetcher.create_classification_target`.  The boolean
comparison against the shifted close is taken before `astype(int)`, so a
NaN forward close compares false and becomes target 0.  An unknown
method leaves no `Target` column, `dropna(subset=['Target'])` raises
`KeyError`, and the `except` handler returns the input unchanged. -/
def createClassificationTarget (msqrt : ℚ → ℚ) (data : Table) (method : String)
    (periods : ℕ) : Table :=
  if method = "price_direction" then
    match data.getNums "Close" with
    | some close =>
        let target := List.zipWith
          (fun s c => if FVal.blt c s then FVal.fin 1 else FVal.fin 0)
          (shiftNeg periods close) close
        (data.setCol "Target" (.nums target)).dropnaSubset "Target"
    | none => data
  else if method = "price_movement" then
    match data.getNums "Close" with
    | some close =>
        let futureReturn := List.zipWith
          (fun s c => FVal.div (FVal.sub s c) c) (shiftNeg periods close) close
        let target := futureReturn.map fun r =>
          if FVal.blt (FVal.fin (1/100)) r then FVal.fin 1
          else if FVal.blt r (FVal.fin (-(1/100))) then FVal.fin (-1) else FVal.fin 0
        (data.setCol "Target" (.nums target)).dropnaSubset "Target"
    | none => data
  else if method = "volatility_breakout" then
    let df := addTechnicalIndicators msqrt data
    match df.getNums "High", df.getNums "Low", df.getNums "BB_Upper", df.getNums "BB_Lower" with
    | some high, some low, some bbUpper, some bbLower =>
        let breakoutUp := List.zipWith FVal.blt bbUpper (shiftNeg periods high)
        let breakoutDown := List.zipWith FVal.blt (shiftNeg periods low) bbLower
        let target := List.zipWith
          (fun u d => if u then FVal.fin 1 else if d then FVal.fin (-1) else FVal.fin 0)
          breakoutUp breakoutDown
        (df.setCol "Target" (.nums target)).dropnaSubset "Target"
    | _, _, _, _ => data
  else data

/-- `FinancialDataFetcher.create_regression_target`.  Same exception
convention as the classification variant. -/
def createRegressionTarget (msqrt : ℚ → ℚ) (data : Table) (targetType : String)
    (periods : ℕ) : Table :=
  if targetType = "next_close" then
    match data.getNums "Close" with
    | some close =>
        (data.setCol "Target" (.nums (shiftNeg periods close))).dropnaSubset "Target"
    | none => data
  else if targetType = "return" then
    match data.getNums "Close" with
    | some close =>
        let target := List.zipWith
          (fun s c => FVal.mul (FVal.div (FVal.sub s c) c) (FVal.fin 100))
          (shiftNeg periods close) close
        (data.setCol "Target" (.nums target)).dropnaSubset "Target"
    | none => data
  else if targetType = "volatility" then
    match data.getNums "Close" with
    | some close =>
        (data.setCol "Target"
          (.nums (shiftNeg periods (rollingStd msqrt periods close)))).dropnaSubset "Target"
    | none => data
  else data

/-- `FinancialDataFetcher.prepare_ml_dataset`: optional indicators →
target construction → calendar features from the `Date` column → drop of
`Date` and of every object column except `Target` → `dropna()`.  A
`Date` column that is not datetime dtype makes `pd.to_datetime` raise
and the `except` handler returns the input unchanged. -/
def prepareMlDataset (msqrt : ℚ → ℚ) (data : Table) (taskType targetMethod : String)
    (periods : ℕ) (includeTechnicalIndicators : Bool) : Table :=
  let df := data
  let df := if includeTechnicalIndicators then addTechnicalIndicators msqrt df else df
  let df := if taskType = "classification" then
      createClassificationTarget msqrt df targetMethod periods
    else createRegressionTarget msqrt df targetMethod periods
  match df.lookup "Date" with
  | some (.dates ds) =>
      let df := df.setCol "Year" (.nums (ds.map fun d => FVal.fin d.year))
      let df := df.setCol "Month" (.nums (ds.map fun d => FVal.fin d.month))
      let df := df.setCol "DayOfWeek" (.nums (ds.map fun d => FVal.fin d.dayofweek))
      let df := df.setCol "Quarter" (.nums (ds.map fun d => FVal.fin d.quarter))
      let df := df.filter fun p => p.1 ≠ "Date" ∧ ¬(p.2.isStrs ∧ p.1 ≠ "Target")
      Table.dropna df
  | some _ => data
  | none =>
      let df := df.filter fun p => p.1 ≠ "Date" ∧ ¬(p.2.isStrs ∧ p.1 ≠ "Target")
      Table.dropna df

/-! ## Tabular preprocessor (`src/data_preprocessing.py`) -/

/-- Insertion into a list sorted by the boolean relation `le`. -/
def insertBy {α : Type} (le : α → α → Bool) (x : α) : List α → List α
  | [] => [x]
  | y :: ys => if le x y then x :: y :: ys else y :: insertBy le x ys

/-- Stable insertion sort by the boolean relation `le`. -/
def sortBy {α : Type} (le : α → α → Bool) : List α → List α
  | [] => []
  | x :: xs => insertBy le x (sortBy le xs)

/-- Median of the non-null cells (`Series.median()`): middle element of
the sorted values, or the mean of the two middle elements. -/
def colMedianF (xs : List FVal) : FVal :=
  let ys := sortBy (fun a b => !FVal.blt b a) (xs.filter fun x => !x.isNan)
  let n := ys.length
  if n = 0 then FVal.nan
  else if n % 2 = 1 then ys.getD (n / 2) FVal.nan
  else FVal.div (FVal.add (ys.getD (n / 2 - 1) FVal.nan) (ys.getD (n / 2) FVal.nan)) (FVal.fin 2)

/-- First element of `Series.mode()` on a float column: the smallest of
the most frequent non-null values.  On an all-null column pandas raises
`IndexError` from the `[0]` subscript; that corner is unreachable from
the claims and is modelled as a NaN fill value, which leaves the column
unchanged. -/
def colModeF (xs : List FVal) : FVal :=
  let ys := xs.filter fun x => !x.isNan
  let cands := sortBy (fun a b => !FVal.blt b a) ys.dedup
  let maxC := (cands.map fun v => (ys.filter (· = v)).length).foldr max 0
  match cands.find? fun v => (ys.filter (· = v)).length = maxC with
  | some v => v
  | none => FVal.nan

/-- First element of `Series.mode()` on an object column. -/
def colModeS (xs : List (Option String)) : Option String :=
  let ys := xs.filterMap id
  let cands := sortBy (fun a b : String => !decide (b < a)) ys.dedup
  let maxC := (cands.map fun v => (ys.filter (· = v)).length).foldr max 0
  cands.find? fun v => (ys.filter (· = v)).length = maxC

/-- Impute one float column under the given strategy.  The
`KNNImputer(n_neighbors=5)` routine of the `knn` branch is an external
sklearn algorithm passed in as the parameter `knn`. -/
def imputeNums (knn : List FVal → List FVal) (strategy : String) (xs : List FVal) : List FVal :=
  if strategy = "mean" then fillnaF (colMeanF xs) xs
  else if strategy = "median" then fillnaF (colMedianF xs) xs
  else if strategy = "mode" then fillnaF (colModeF xs) xs
  else if strategy = "knn" then knn xs
  else xs

/-- Impute one column: numeric dtypes use the numeric strategy, other
dtypes fall back to mode or the sentinel `'Unknown'`. -/
def imputeColData (knn : List FVal → List FVal) (strategy : String) : ColData → ColData
  | .nums xs => .nums (imputeNums knn strategy xs)
  | .strs xs =>
      if strategy = "mode" then
        .strs (match colModeS xs with
          | some m => xs.map fun o => some (o.getD m)
          | none => xs)
      else .strs (xs.map fun o => some (o.getD "Unknown"))
  | .dates xs => .dates xs

/-- `DataPreprocessor.handle_missing_values`: for each requested column
(default: all), if it contains a null, fill its nulls in the working
copy using the statistic computed from the input frame.  A
caller-supplied column name that is absent would raise `KeyError` in
pandas; no claim exercises that corner and it is modelled as a skip. -/
def hmStep (knn : List FVal → List FVal) (strategy : String) (df : Table) (dfc : Table)
    (c : String) : Table :=
  match Table.lookup df c with
  | some cd => if cd.hasNull then Table.setCol dfc c (imputeColData knn strategy cd) else dfc
  | none => dfc

def handleMissingValues (knn : List FVal → List FVal) (df : Table) (strategy : String)
    (columns : Option (List String)) : Table :=
  let cols := columns.getD (Table.colNames df)
  cols.foldl (hmStep knn strategy df) df

/-- `astype(str)` on a column.  The Python string image of a float or a
timestamp is modelled by a fixed deterministic rendering; the claims
only encode object columns, where `NaN` renders as `"nan"`. -/
def fvalStr : FVal → String
  | .nan => "nan"
  | .inf b => if b then "inf" else "-inf"
  | .fin q => toString q

def astypeStr : ColData → List String
  | .nums xs => xs.map fvalStr
  | .strs xs => xs.map fun o => o.getD "nan"
  | .dates xs => xs.map fun _ => "Timestamp"

/-- `LabelEncoder.fit`: the classes are the sorted distinct values. -/
def fitClasses (vals : List String) : List String :=
  sortBy (fun a b : String => !decide (b < a)) vals.dedup

/-- `LabelEncoder.transform`: index of each value in the fitted classes;
an unseen value raises `ValueError`, modelled as `none`. -/
def encodeOne (classes : List String) (vals : List String) : Option (List FVal) :=
  if vals.all (fun v => classes.contains v) then
    some (vals.map fun v => FVal.fin ((classes.indexOf v : ℕ) : ℚ))
  else none

/-- The cell values of a column as optional strings, for
`pd.get_dummies` (null cells produce no indicator). -/
def cellStrs : ColData → List (Option String)
  | .strs xs => xs
  | .nums xs => xs.map fun x => if x.isNan then none else some (fvalStr x)
  | .dates xs => xs.map fun _ => some "Timestamp"

def dummyClasses (cd : ColData) : List String :=
  fitClasses ((cellStrs cd).filterMap id)

def dummyCol (cd : ColData) (cl : String) : ColData :=
  .nums ((cellStrs cd).map fun o => if o = some cl then FVal.fin 1 else FVal.fin 0)

/-- A fitted scaler: `StandardScaler` carries per-column
`(mean_, scale_)`, `MinMaxScaler` per-column `(data_min_, data_max_)`. -/
inductive ScalerState where
  | standard : List (FVal × FVal) → ScalerState
  | minmax : List (FVal × FVal) → ScalerState
deriving DecidableEq, Repr

/-- Per-preprocessor fitted state (`DataPreprocessor.__init__`): the
per-column label encoders (insertion order), at most one scaler, at most
one feature selector (its support mask) and at most one target encoder.
The `self.imputer` attribute of the source is never assigned or read and
is omitted. -/
structure Preprocessor where
  label_encoders : List (String × List String)
  scaler : Option ScalerState
  feature_selector : Option (List Bool)
  target_encoder : Option (List String)
deriving DecidableEq, Repr

/-- A freshly constructed `DataPreprocessor()`. -/
def initPreprocessor : Preprocessor := ⟨[], none, none, none⟩

/-- The loop body of `encode_categorical_variables`: fit-and-apply a new
label encoder for an unseen column, apply the stored one otherwise; an
unseen label under a stored encoder raises, aborting the call with the
state fitted so far.  A missing column name would raise `KeyError` in
pandas (leaving behind a never-fitted encoder object); no claim reaches
that corner and it is modelled as an error without a state change. -/
def encodeGo (method : String) : Preprocessor → Table → List String → Preprocessor × Option Table
  | p, df, [] => (p, some df)
  | p, df, c :: cs =>
      if method = "label" then
        match Table.lookup df c with
        | none => (p, none)
        | some cd =>
            let vals := astypeStr cd
            match List.lookup c p.label_encoders with
            | none =>
                let classes := fitClasses vals
                encodeGo method { p with label_encoders := p.label_encoders ++ [(c, classes)] }
                  (Table.setCol df c
                    (.nums (vals.map fun v => FVal.fin ((classes.indexOf v : ℕ) : ℚ)))) cs
            | some classes =>
                match encodeOne classes vals with
                | some xs => encodeGo method p (Table.setCol df c (.nums xs)) cs
                | none => (p, none)
      else if method = "onehot" then
        match Table.lookup df c with
        | none => (p, none)
        | some cd =>
            let classes := dummyClasses cd
            encodeGo method p
              (Table.dropCol df c ++ classes.map fun cl => (c ++ "_" ++ cl, dummyCol cd cl)) cs
      else encodeGo method p df cs

/-- `DataPreprocessor.encode_categorical_variables`. -/
def encodeCategoricalVariables (p : Preprocessor) (df : Table) (columns : Option (List String))
    (method : String) : Preprocessor × Option Table :=
  encodeGo method p df (columns.getD (Table.objectCols df))

/-- sklearn's `_handle_zeros_in_scale`: a zero scale divides as one. -/
def handleZeros (s : FVal) : FVal := if s = FVal.fin 0 then FVal.fin 1 else s

/-- `np.min` over the cells (NaN-poisoning as in numpy). -/
def minF (xs : List FVal) : FVal :=
  match xs with
  | [] => FVal.nan
  | x :: rest => rest.foldl (fun a b => if a.isNan || b.isNan then FVal.nan
      else if FVal.blt b a then b else a) x

/-- `np.max` over the cells. -/
def maxF (xs : List FVal) : FVal :=
  match xs with
  | [] => FVal.nan
  | x :: rest => rest.foldl (fun a b => if a.isNan || b.isNan then FVal.nan
      else if FVal.blt a b then b else a) x

/-- `StandardScaler.fit` on the named columns: per-column mean and
standard deviation (population variance, zero scale mapped to one). -/
def fitStandard (msqrt : ℚ → ℚ) (df : Table) (cols : List String) : ScalerState :=
  .standard (cols.map fun c =>
    let xs := (Table.getNums df c).getD []
    let m := FVal.div (sumF xs) (FVal.fin xs.length)
    let v := FVal.div (sumF (xs.map fun x => FVal.mul (FVal.sub x m) (FVal.sub x m)))
      (FVal.fin xs.length)
    (m, handleZeros (FVal.sqrtF msqrt v)))

/-- `MinMaxScaler.fit` on the named columns. -/
def fitMinmax (df : Table) (cols : List String) : ScalerState :=
  .minmax (cols.map fun c =>
    let xs := (Table.getNums df c).getD []
    (minF xs, maxF xs))

/-- Apply a fitted scaler to the named columns of a frame. -/
def applyScaler (sc : ScalerState) (df : Table) (cols : List String) : Table :=
  match sc with
  | .standard ps => (cols.zip ps).foldl (fun d q =>
      match Table.getNums d q.1 with
      | some xs => Table.setCol d q.1 (.nums (xs.map fun x => FVal.div (FVal.sub x q.2.1) q.2.2))
      | none => d) df
  | .minmax ps => (cols.zip ps).foldl (fun d q =>
      match Table.getNums d q.1 with
      | some xs => Table.setCol d q.1
          (.nums (xs.map fun x => FVal.div (FVal.sub x q.2.1) (handleZeros (FVal.sub q.2.2 q.2.1))))
      | none => d) df

/-- `DataPreprocessor.scale_features`: fit a scaler of the requested
kind on first use, apply the stored scaler on every later call (whatever
its kind). -/
def scaleFeatures (msqrt : ℚ → ℚ) (p : Preprocessor) (df : Table)
    (columns : Option (List String)) (method : String) : Preprocessor × Table :=
  let cols := columns.getD (Table.numericCols df)
  if method = "standard" then
    match p.scaler with
    | none =>
        let sc := fitStandard msqrt df cols
        ({ p with scaler := some sc }, applyScaler sc df cols)
    | some sc => (p, applyScaler sc df cols)
  else if method = "minmax" then
    match p.scaler with
    | none =>
        let sc := fitMinmax df cols
        ({ p with scaler := some sc }, applyScaler sc df cols)
    | some sc => (p, applyScaler sc df cols)
  else (p, df)

/-- `SelectKBest.get_support()` for the `k` highest scores: stable
ascending argsort, keep the last `k` positions. -/
def topKSupport (scores : List ℚ) (k : ℕ) : List Bool :=
  let n := scores.length
  let order := sortBy (fun i j => decide (scores.getD i 0 < scores.getD j 0) ||
    (decide (scores.getD i 0 = scores.getD j 0) && decide (i ≤ j))) (List.range n)
  let chosen := order.drop (n - k)
  (List.range n).map fun i => chosen.contains i

/-- Keep the columns selected by the support mask, positionally. -/
def maskTable (mask : List Bool) (X : Table) : Table :=
  ((X.zip mask).filter fun p => p.2).map Prod.fst

/-- `DataPreprocessor.select_features`: fit a `SelectKBest` on first
use (fitting with `k` larger than the number of columns raises in
sklearn), reuse the stored support afterwards.  The univariate score
functions `f_classif` / `f_regression` are external sklearn routines
passed in as parameters. -/
def selectFeatures (fClassif fRegression : Table → ColData → List ℚ) (p : Preprocessor)
    (X : Table) (y : ColData) (k : ℕ) (taskType : String) :
    Preprocessor × Option (Table × List String) :=
  let scoreFun := if taskType = "classification" then fClassif else fRegression
  match p.feature_selector with
  | none =>
      if X.length < k then (p, none)
      else
        let mask := topKSupport (scoreFun X y) k
        ({ p with feature_selector := some mask },
          some (maskTable mask X, Table.colNames (maskTable mask X)))
  | some mask => (p, some (maskTable mask X, Table.colNames (maskTable mask X)))

/-- Target encoding inside `preprocess_pipeline` (classification with an
object-dtype target): fit once, transform thereafter, unseen labels
raise. -/
def targetEncode (p : Preprocessor) (y : ColData) : Preprocessor × Option ColData :=
  match y with
  | .strs xs =>
      let vals := xs.map fun o => o.getD "nan"
      match p.target_encoder with
      | none =>
          let classes := fitClasses vals
          ({ p with target_encoder := some classes },
            some (.nums (vals.map fun v => FVal.fin ((classes.indexOf v : ℕ) : ℚ))))
      | some classes =>
          match encodeOne classes vals with
          | some ys => (p, some (.nums ys))
          | none => (p, none)
  | c => (p, some c)

/-- The stages of `preprocess_pipeline` before feature selection:
separate features and target, impute, encode the categorical columns
(when any), encode the target (classification with object target),
scale the numeric columns (when any). -/
def pipelinePre (msqrt : ℚ → ℚ) (knn : List FVal → List FVal) (p : Preprocessor) (df : Table)
    (targetColumn : String) (missingStrategy encodingMethod scalingMethod taskType : String) :
    Preprocessor × Option (Table × ColData) :=
  match Table.lookup df targetColumn with
  | none => (p, none)
  | some y =>
      let X := Table.dropCol df targetColumn
      let X := handleMissingValues knn X missingStrategy none
      let catCols := Table.objectCols X
      let (p1, oX) := if catCols ≠ [] then
          encodeCategoricalVariables p X (some catCols) encodingMethod
        else (p, some X)
      match oX with
      | none => (p1, none)
      | some X2 =>
          let (p2, oy) := if taskType = "classification" ∧ y.isStrs then targetEncode p1 y
            else (p1, some y)
          match oy with
          | none => (p2, none)
          | some y2 =>
              let numCols := Table.numericCols X2
              let (p3, X3) := if numCols ≠ [] then
                  scaleFeatures msqrt p2 X2 (some numCols) scalingMethod
                else (p2, X2)
              (p3, some (X3, y2))

/-- `DataPreprocessor.preprocess_pipeline`.  Selection runs only when
`feature_selection_k` is truthy and strictly below the number of feature
columns; the final random split is sklearn's seeded `train_test_split`,
passed in as the parameter `tts`.  `none` models an exception reported
to the caller. -/
def preprocessPipeline (msqrt : ℚ → ℚ) (knn : List FVal → List FVal)
    (fClassif fRegression : Table → ColData → List ℚ)
    (tts : Table → ColData → ℚ → Bool → Table × Table × ColData × ColData)
    (p : Preprocessor) (df : Table) (targetColumn : String) (testSize : ℚ)
    (missingStrategy encodingMethod scalingMethod : String) (featureSelectionK : Option ℕ)
    (taskType : String) :
    Preprocessor × Option ((Table × Table × ColData × ColData) × List String) :=
  match pipelinePre msqrt knn p df targetColumn missingStrategy encodingMethod scalingMethod
      taskType with
  | (p3, none) => (p3, none)
  | (p3, some (X3, y2)) =>
      let runSelection := match featureSelectionK with
        | some k => decide (k ≠ 0) && decide (k < X3.length)
        | none => false
      if runSelection then
        match featureSelectionK with
        | some k =>
            match selectFeatures fClassif fRegression p3 X3 y2 k taskType with
            | (p4, some (X4, _)) =>
                (p4, some (tts X4 y2 testSize (taskType = "classification"), Table.colNames X4))
            | (p4, none) => (p4, none)
        | none => (p3, none)
      else
        (p3, some (tts X3 y2 testSize (taskType = "classification"), Table.colNames X3))

/-- `df.reindex(columns=cols, fill_value=0)`: the named columns in the
requested order, a zero column for each structurally missing name. -/
def nRows (t : Table) : ℕ := t.head?.elim 0 fun p => p.2.size

def reindex (t : Table) (cols : List String) : Table :=
  cols.map fun c => (c, (Table.lookup t c).getD (.nums (List.replicate (nRows t) (FVal.fin 0))))

/-- `DataPreprocessor.transform_new_data`: impute (always, with the
default mean strategy), label-encode the object columns (when any),
scale the numeric columns when a scaler has been fitted, apply the
fitted selector when one exists (relabelling the surviving columns with
`feature_columns`, as the `pd.DataFrame(..., columns=feature_columns)`
constructor does), then reindex to exactly `feature_columns` filling
missing columns with zero. -/
def transformNewData (msqrt : ℚ → ℚ) (knn : List FVal → List FVal) (p : Preprocessor)
    (df : Table) (featureColumns : List String) : Preprocessor × Option Table :=
  let df1 := handleMissingValues knn df "mean" none
  let catCols := Table.objectCols df1
  let (p1, odf2) := if catCols ≠ [] then encodeCategoricalVariables p df1 (some catCols) "label"
    else (p, some df1)
  match odf2 with
  | none => (p1, none)
  | some df2 =>
      let numCols := Table.numericCols df2
      let (p2, df3) := if numCols ≠ [] ∧ p1.scaler ≠ none then
          scaleFeatures msqrt p1 df2 (some numCols) "standard"
        else (p1, df2)
      let df4 := match p2.feature_selector with
        | some mask => featureColumns.zip ((maskTable mask df3).map Prod.snd)
        | none => df3
      (p2, some (reindex df4 featureColumns))

/-! ## Model registry (`src/model_manager.py`) -/

/-- A metadata record, restricted to the fields the verified operations
read (`model_type`, `performance_metrics`, `model_path`); the remaining
bookkeeping fields are never consulted by `get_best_model` or
`get_storage_usage`. -/
structure ModelRecord where
  model_type : String
  performance_metrics : List (String × ℚ)
  model_path : String
deriving DecidableEq, Repr

/-- The registry metadata: an insertion-ordered map from model id to
record (one JSON object). -/
abbrev Metadata := List (String × ModelRecord)

/-- Python `str.upper()` on the ASCII range (metric names are ASCII). -/
def upperChar (c : Char) : Char :=
  if 'a' ≤ c ∧ c ≤ 'z' then Char.ofNat (c.toNat - 32) else c

def upperStr (s : String) : String := String.mk (s.data.map upperChar)

/-- Is the metric minimized (`metric.upper() in ['RMSE', 'MAE', 'MSE']`)? -/
def lowerIsBetter (metric : String) : Bool :=
  upperStr metric = "RMSE" || upperStr metric = "MAE" || upperStr metric = "MSE"

/-- The loop body of `get_best_model`. -/
def bestStep (metric taskType : String) (best : Option (String × ℚ)) (x : String × ModelRecord) :
    Option (String × ℚ) :=
  if x.2.model_type ≠ taskType then best
  else
    match List.lookup metric x.2.performance_metrics with
    | none => best
    | some score =>
        match best with
        | none => some (x.1, score)
        | some (bid, bs) =>
            if lowerIsBetter metric then
              if score < bs then some (x.1, score) else some (bid, bs)
            else
              if score > bs then some (x.1, score) else some (bid, bs)

/-- `ModelManager.get_best_model`: scan the records of the requested
task type and keep the best score under the metric's convention. -/
def getBestModel (metadata : Metadata) (metric taskType : String) : Option (String × ℚ) :=
  if metadata.isEmpty then none
  else metadata.foldl (bestStep metric taskType) none

/-- Python `round` (banker's rounding) to an integer. -/
def roundHalfEven (q : ℚ) : ℤ :=
  let f := ⌊q⌋
  let r := q - f
  if r < 1 / 2 then f else if 1 / 2 < r then f + 1 else if Even f then f else f + 1

/-- Python `round(x, 2)` on the exact rational value. -/
def round2 (q : ℚ) : ℚ := (roundHalfEven (q * 100) : ℚ) / 100

/-- The result of `get_storage_usage`. -/
structure StorageUsage where
  total_size_mb : ℚ
  model_count : ℕ
  avg_size_mb : ℚ
deriving DecidableEq, Repr

/-- `ModelManager.get_storage_usage`: the filesystem is a map from path
to the size of the file at it, when one exists.  Only metadata entries
whose artifact file exists contribute to the totals, and the average
divides by `max(model_count, 1)`. -/
def storageStep (fs : String → Option ℕ) (a : ℕ × ℕ) (x : String × ModelRecord) : ℕ × ℕ :=
  match fs x.2.model_path with
  | some sz => (a.1 + sz, a.2 + 1)
  | none => a

def getStorageUsage (fs : String → Option ℕ) (metadata : Metadata) : StorageUsage :=
  let acc := metadata.foldl (storageStep fs) (0, 0)
  { total_size_mb := round2 ((acc.1 : ℚ) / (1024 * 1024))
    model_count := acc.2
    avg_size_mb := round2 ((acc.1 : ℚ) / (1024 * 1024) / (max acc.2 1 : ℕ)) }

/-! ## Reference heap for the copy discipline

The Python callers hold DataFrames by reference; every transformation
begins with `df.copy()` and mutates only the copy.  The heap model makes
that visible: a `Heap` is the list of live frames, an operation takes
the index of its argument, allocates the copy, writes only to the
fresh index, and returns it.  An aliasing implementation (`df_copy =
data` instead of `data.copy()`) would write to the caller's index and
falsify the frame theorem. -/

abbrev Heap := List Table

/-- Statement `df_copy = df.copy()` followed by the body's mutations of
`df_copy` only: allocate a fresh slot holding the copy and overwrite
that slot with the transformed frame. -/
def runOnCopy (h : Heap) (i : ℕ) (f : Table → Table) : Heap × ℕ :=
  let t := h.getD i []
  ((h ++ [t]).set h.length (f t), h.length)

/-- `handle_missing_values` acting on the reference heap. -/
def handleMissingValuesH (knn : List FVal → List FVal) (h : Heap) (i : ℕ) (strategy : String)
    (columns : Option (List String)) : Heap × ℕ :=
  runOnCopy h i fun t => handleMissingValues knn t strategy columns

/-- `encode_categorical_variables` acting on the reference heap (the
transformed copy, or the partially encoded copy when a transform step
raises, lives only in the fresh slot). -/
def encodeCategoricalVariablesH (p : Preprocessor) (h : Heap) (i : ℕ)
    (columns : Option (List String)) (method : String) : Preprocessor × Heap × ℕ :=
  let t := h.getD i []
  let r := encodeCategoricalVariables p t columns method
  (r.1, runOnCopy h i fun t => (r.2.getD t))

/-- `scale_features` acting on the reference heap. -/
def scaleFeaturesH (msqrt : ℚ → ℚ) (p : Preprocessor) (h : Heap) (i : ℕ)
    (columns : Option (List String)) (method : String) : Preprocessor × Heap × ℕ :=
  let t := h.getD i []
  let r := scaleFeatures msqrt p t columns method
  (r.1, runOnCopy h i fun _ => r.2)

/-- `add_technical_indicators` acting on the reference heap. -/
def addTechnicalIndicatorsH (msqrt : ℚ → ℚ) (h : Heap) (i : ℕ) : Heap × ℕ :=
  runOnCopy h i fun t => addTechnicalIndicators msqrt t

/-- `create_classification_target` acting on the reference heap. -/
def createClassificationTargetH (msqrt : ℚ → ℚ) (h : Heap) (i : ℕ) (method : String)
    (periods : ℕ) : Heap × ℕ :=
  runOnCopy h i fun t => createClassificationTarget msqrt t method periods

/-- `prepare_ml_dataset` acting on the reference heap. -/
def prepareMlDatasetH (msqrt : ℚ → ℚ) (h : Heap) (i : ℕ) (taskType targetMethod : String)
    (periods : ℕ) (includeTechnicalIndicators : Bool) : Heap × ℕ :=
  runOnCopy h i fun t => prepareMlDataset msqrt t taskType targetMethod periods
    includeTechnicalIndicators

/-! ## Theorems -/

/-- An operation run on a fresh copy never changes a pre-existing heap
slot. -/
theorem runOnCopy_frame (h : Heap) (i j : ℕ) (f : Table → Table) (hj : j < h.length) :
    ((runOnCopy h i f).1).get? j = h.get? j := by
  show ((h ++ [h.getD i []]).set h.length (f (h.getD i []))).get? j = h.get? j
  rw [List.get?_eq_getElem?, List.get?_eq_getElem?,
    List.getElem?_set_ne (Nat.ne_of_gt hj), List.getElem?_append_left hj]

/-- C1: the claim (and the source comment `Remove rows with NaN targets
(last few rows)`) say the tail row whose forward close is missing is
dropped, leaving targets `[1, 0, 1]`.  The code compares before
`astype(int)`, so the NaN forward close compares false, the final
target is 0, not NaN, and `dropna` removes nothing: on closes
`[10, 12, 11, 15]` with `periods = 1` all four rows survive with
targets `[1, 0, 1, 0]`. -/
theorem c1_price_direction_keeps_undefined_tail_row :
    createClassificationTarget id
        [("Close", ColData.nums [.fin 10, .fin 12, .fin 11, .fin 15])] "price_direction" 1 =
      [("Close", ColData.nums [.fin 10, .fin 12, .fin 11, .fin 15]),
       ("Target", ColData.nums [.fin 1, .fin 0, .fin 1, .fin 0])] := by
  decide

/-- C9: every transformation of the preprocessor and of the feature
builder runs on a copy: after the call, every frame the caller already
held (in particular the input frame) is unchanged on the heap. -/
theorem c9_transformations_leave_caller_frames_unchanged
    (msqrt : ℚ → ℚ) (knn : List FVal → List FVal) (p : Preprocessor) (h : Heap) (i j : ℕ)
    (strategy method taskType targetMethod : String) (columns : Option (List String))
    (periods : ℕ) (includeTechnicalIndicators : Bool) (hj : j < h.length) :
    ((handleMissingValuesH knn h i strategy columns).1).get? j = h.get? j ∧
    ((encodeCategoricalVariablesH p h i columns method).2.1).get? j = h.get? j ∧
    ((scaleFeaturesH msqrt p h i columns method).2.1).get? j = h.get? j ∧
    ((addTechnicalIndicatorsH msqrt h i).1).get? j = h.get? j ∧
    ((createClassificationTargetH msqrt h i method periods).1).get? j = h.get? j ∧
    ((prepareMlDatasetH msqrt h i taskType targetMethod periods
        includeTechnicalIndicators).1).get? j = h.get? j :=
  ⟨runOnCopy_frame h i j _ hj, runOnCopy_frame h i j _ hj, runOnCopy_frame h i j _ hj,
   runOnCopy_frame h i j _ hj, runOnCopy_frame h i j _ hj, runOnCopy_frame h i j _ hj⟩

/-- The metadata entries whose artifact file exists on the given
filesystem. -/
def existingEntries (fs : String → Option ℕ) (metadata : Metadata) : Metadata :=
  metadata.filter fun x => (fs x.2.model_path).isSome

/-- Total size in bytes of the existing artifact files. -/
def totalBytes (fs : String → Option ℕ) (metadata : Metadata) : ℕ :=
  ((existingEntries fs metadata).map fun x => (fs x.2.model_path).getD 0).sum

/-- The storage fold accumulates exactly the size sum of the entries
whose artifact exists. -/
theorem storage_foldl_fst (fs : String → Option ℕ) (md : Metadata) : ∀ a : ℕ × ℕ,
    (md.foldl (storageStep fs) a).1 = a.1 + totalBytes fs md := by
  induction md with
  | nil => intro a; simp [totalBytes, existingEntries]
  | cons x md ih =>
      intro a
      cases hfs : fs x.2.model_path with
      | none =>
          simp only [List.foldl_cons, storageStep, hfs, ih, totalBytes, existingEntries,
            List.filter_cons, Option.isSome_none, Bool.false_eq_true, if_false]
      | some sz =>
          simp only [List.foldl_cons, storageStep, hfs, ih, totalBytes, existingEntries,
            List.filter_cons, Option.isSome_some, if_true, List.map_cons, List.sum_cons,
            Option.getD_some]
          omega

/-- The storage fold counts exactly the entries whose artifact exists. -/
theorem storage_foldl_snd (fs : String → Option ℕ) (md : Metadata) : ∀ a : ℕ × ℕ,
    (md.foldl (storageStep fs) a).2 = a.2 + (existingEntries fs md).length := by
  induction md with
  | nil => intro a; simp [existingEntries]
  | cons x md ih =>
      intro a
      cases hfs : fs x.2.model_path with
      | none =>
          simp only [List.foldl_cons, storageStep, hfs, ih, existingEntries,
            List.filter_cons, Option.isSome_none, Bool.false_eq_true, if_false]
      | some sz =>
          simp only [List.foldl_cons, storageStep, hfs, ih, existingEntries,
            List.filter_cons, Option.isSome_some, if_true, List.length_cons]
          omega

/-- Closed form of `get_storage_usage`. -/
theorem getStorageUsage_eq (fs : String → Option ℕ) (md : Metadata) :
    getStorageUsage fs md =
      { total_size_mb := round2 ((totalBytes fs md : ℚ) / (1024 * 1024))
        model_count := (existingEntries fs md).length
        avg_size_mb := round2 ((totalBytes fs md : ℚ) / (1024 * 1024) /
          (max (existingEntries fs md).length 1 : ℕ)) } := by
  show ({ total_size_mb := round2 (((md.foldl (storageStep fs) (0, 0)).1 : ℚ) / (1024 * 1024))
          model_count := (md.foldl (storageStep fs) (0, 0)).2
          avg_size_mb := round2 (((md.foldl (storageStep fs) (0, 0)).1 : ℚ) / (1024 * 1024) /
            (max (md.foldl (storageStep fs) (0, 0)).2 1 : ℕ)) } : StorageUsage) = _
  rw [storage_foldl_fst fs md (0, 0), storage_foldl_snd fs md (0, 0)]
  norm_num

/-- C10: `get_storage_usage` is total on every registry state and
filesystem: the count and total count only the metadata entries whose
artifact file exists (so the count is at most the number of entries),
the average divides by `max(count, 1)`, and a registry with no existing
artifact file reports zero count, zero total and zero average, with no
division by zero. -/
theorem c10_storage_usage_counts_existing_and_never_divides_by_zero
    (fs : String → Option ℕ) (md : Metadata) :
    (getStorageUsage fs md).model_count = (existingEntries fs md).length ∧
    (getStorageUsage fs md).model_count ≤ md.length ∧
    (getStorageUsage fs md).total_size_mb = round2 ((totalBytes fs md : ℚ) / (1024 * 1024)) ∧
    (getStorageUsage fs md).avg_size_mb =
      round2 ((totalBytes fs md : ℚ) / (1024 * 1024) / (max (existingEntries fs md).length 1 : ℕ)) ∧
    ((∀ x ∈ md, fs x.2.model_path = none) → getStorageUsage fs md = ⟨0, 0, 0⟩) := by
  rw [getStorageUsage_eq]
  refine ⟨rfl, List.length_filter_le _ md, rfl, rfl, ?_⟩
  intro hnone
  have hnil : existingEntries fs md = [] := by
    simp only [existingEntries, List.filter_eq_nil_iff]
    intro x hx
    simp [hnone x hx]
  have h0 : totalBytes fs md = 0 := by simp [totalBytes, hnil]
  rw [h0, hnil]
  have hr : round2 ((0 : ℚ) / (1024 * 1024)) = 0 := by
    norm_num [round2, roundHalfEven]
  simp only [List.length_nil, Nat.cast_zero]
  norm_num [hr]
  norm_num [round2, roundHalfEven]

/-- `List.lookup` steps: head hit. -/
theorem lookup_cons_self {β : Type} (k : String) (b : β) (es : List (String × β)) :
    ((k, b) :: es).lookup k = some b := by
  rw [List.lookup_cons]
  have hbeq : (k == k) = true := by simp
  rw [hbeq]

/-- `List.lookup` steps: head miss. -/
theorem lookup_cons_ne {β : Type} (k a : String) (b : β) (es : List (String × β)) (h : a ≠ k) :
    ((k, b) :: es).lookup a = es.lookup a := by
  rw [List.lookup_cons]
  have hbeq : (a == k) = false := by simp [h]
  rw [hbeq]

/-- Looking up a name after `setCol` with that name yields the assigned
column. -/
theorem lookup_setCol_self (t : Table) (n : String) (v : ColData) :
    Table.lookup (Table.setCol t n v) n = some v := by
  induction t with
  | nil => exact lookup_cons_self n v []
  | cons x rest ih =>
      rcases x with ⟨m, c⟩
      by_cases hm : m = n
      · rw [Table.setCol, if_pos hm]
        exact lookup_cons_self n v rest
      · rw [Table.setCol, if_neg hm]
        show ((m, c) :: Table.setCol rest n v).lookup n = some v
        rw [lookup_cons_ne m n c _ (fun h => hm h.symm)]
        exact ih

/-- Looking up a different name after `setCol` is unchanged. -/
theorem lookup_setCol_ne (t : Table) (n m : String) (v : ColData) (h : m ≠ n) :
    Table.lookup (Table.setCol t n v) m = Table.lookup t m := by
  induction t with
  | nil =>
      show ((n, v) :: []).lookup m = ([] : Table).lookup m
      rw [lookup_cons_ne n m v [] h]
  | cons x rest ih =>
      rcases x with ⟨m0, c⟩
      by_cases hm : m0 = n
      · subst hm
        rw [Table.setCol, if_pos rfl]
        show ((m0, v) :: rest).lookup m = ((m0, c) :: rest).lookup m
        rw [lookup_cons_ne m0 m v rest h, lookup_cons_ne m0 m c rest h]
      · rw [Table.setCol, if_neg hm]
        by_cases hm2 : m = m0
        · subst hm2
          show ((m, c) :: Table.setCol rest n v).lookup m = ((m, c) :: rest).lookup m
          rw [lookup_cons_self, lookup_cons_self]
        · show ((m0, c) :: Table.setCol rest n v).lookup m = ((m0, c) :: rest).lookup m
          rw [lookup_cons_ne m0 m c _ hm2, lookup_cons_ne m0 m c rest hm2]
          exact ih

/-- A successful lookup names a column of the frame. -/
theorem lookup_mem_colNames (t : Table) (n : String) (cd : ColData)
    (h : Table.lookup t n = some cd) : n ∈ Table.colNames t := by
  induction t with
  | nil => cases h
  | cons x rest ih =>
      by_cases hx : n = x.1
      · simp [Table.colNames, hx]
      · replace h : ((x.1, x.2) :: rest).lookup n = some cd := h
        rw [lookup_cons_ne x.1 n x.2 rest hx] at h
        simp only [Table.colNames, List.map_cons, List.mem_cons]
        exact Or.inr (ih h)

/-- A successful lookup returns a column of the frame. -/
theorem lookup_mem (t : Table) (n : String) (cd : ColData)
    (h : Table.lookup t n = some cd) : (n, cd) ∈ t := by
  induction t with
  | nil => cases h
  | cons x rest ih =>
      by_cases hx : n = x.1
      · replace h : ((x.1, x.2) :: rest).lookup n = some cd := h
        subst hx
        rw [lookup_cons_self] at h
        cases h
        exact List.mem_cons_self _ rest
      · replace h : ((x.1, x.2) :: rest).lookup n = some cd := h
        rw [lookup_cons_ne x.1 n x.2 rest hx] at h
        exact List.mem_cons_of_mem x (ih h)

/-- A hit in the left part of an association-list append. -/
theorem lookup_append_left {β : Type} (l1 l2 : List (String × β)) (a : String) (b : β)
    (h : l1.lookup a = some b) : (l1 ++ l2).lookup a = some b := by
  induction l1 with
  | nil => cases h
  | cons x l ih =>
      by_cases hx : a = x.1
      · replace h : ((x.1, x.2) :: l).lookup a = some b := h
        subst hx
        rw [lookup_cons_self] at h
        show ((x.1, x.2) :: (l ++ l2)).lookup x.1 = some b
        rw [lookup_cons_self]
        exact h
      · replace h : ((x.1, x.2) :: l).lookup a = some b := h
        rw [lookup_cons_ne x.1 a x.2 l hx] at h
        show ((x.1, x.2) :: (l ++ l2)).lookup a = some b
        rw [lookup_cons_ne x.1 a x.2 _ hx]
        exact ih h

/-- The encode loop never refits an existing label encoder: a column's
fitted classes survive any further `encode_categorical_variables`
call unchanged. -/
theorem encodeGo_preserves_encoders (method : String) (cols : List String) :
    ∀ (p : Preprocessor) (df : Table) (c : String) (classes : List String),
      p.label_encoders.lookup c = some classes →
      ((encodeGo method p df cols).1).label_encoders.lookup c = some classes := by
  induction cols with
  | nil => intro p df c classes h; exact h
  | cons c0 cols ih =>
      intro p df c classes h
      unfold encodeGo
      by_cases hm : method = "label"
      · rw [if_pos hm]
        split
        · exact h
        · split
          · apply ih
            exact lookup_append_left _ _ c classes h
          · dsimp only
            split
            · exact ih _ _ _ _ h
            · exact h
      · rw [if_neg hm]
        by_cases ho : method = "onehot"
        · rw [if_pos ho]
          split
          · exact h
          · exact ih _ _ _ _ h
        · rw [if_neg ho]
          exact ih _ _ _ _ h

/-- C2: fit-once/apply-many.  A fitted scaler is never refitted (the
state after any further `scale` call still holds it, and the call
applies exactly the stored transform); a column's fitted label-encoder
classes are identical after any further `encode` call; a fitted
selector makes `select_top_k` apply the stored support without
refitting. -/
theorem c2_fit_once_apply_many (msqrt : ℚ → ℚ)
    (fClassif fRegression : Table → ColData → List ℚ) (p : Preprocessor) (df X : Table)
    (y : ColData) (columns : Option (List String)) (method taskType : String) (k : ℕ) :
    (∀ sc, p.scaler = some sc →
      (scaleFeatures msqrt p df columns method).1 = p ∧
      (method = "standard" ∨ method = "minmax" →
        (scaleFeatures msqrt p df columns method).2 =
          applyScaler sc df (columns.getD (Table.numericCols df)))) ∧
    (∀ c classes, p.label_encoders.lookup c = some classes →
      ((encodeCategoricalVariables p df columns method).1).label_encoders.lookup c =
        some classes) ∧
    (∀ mask, p.feature_selector = some mask →
      selectFeatures fClassif fRegression p X y k taskType =
        (p, some (maskTable mask X, Table.colNames (maskTable mask X)))) := by
  refine ⟨fun sc hsc => ?_, fun c classes h =>
    encodeGo_preserves_encoders method _ p df c classes h, fun mask hm => ?_⟩
  · unfold scaleFeatures
    by_cases h1 : method = "standard"
    · rw [if_pos h1, hsc]
      exact ⟨rfl, fun _ => rfl⟩
    · by_cases h2 : method = "minmax"
      · rw [if_neg h1, if_pos h2, hsc]
        exact ⟨rfl, fun _ => rfl⟩
      · rw [if_neg h1, if_neg h2]
        refine ⟨rfl, fun hor => ?_⟩
        rcases hor with h | h
        · exact absurd h h1
        · exact absurd h h2
  · unfold selectFeatures
    rw [hm]

/-- Concrete run of the fit-once theorem: a preprocessor holding a
fitted standard scaler, a fitted encoder for column `c` and a fitted
selector is bit-for-bit unchanged by a second `scale`, keeps the classes
of `c` across a second `encode`, and replays the stored support in
`select_top_k`. -/
theorem c2_fit_once_apply_many_witness :
    (scaleFeatures id
        ⟨[("c", ["a", "b"])], some (.standard [(FVal.fin 0, FVal.fin 1)]), some [true], none⟩
        [("x", ColData.nums [.fin 1])] none "standard").1 =
      ⟨[("c", ["a", "b"])], some (.standard [(FVal.fin 0, FVal.fin 1)]), some [true], none⟩ ∧
    ((encodeCategoricalVariables
        ⟨[("c", ["a", "b"])], some (.standard [(FVal.fin 0, FVal.fin 1)]), some [true], none⟩
        [("c", ColData.strs [some "a"])] none "label").1).label_encoders.lookup "c" =
      some ["a", "b"] ∧
    selectFeatures (fun _ _ => []) (fun _ _ => [])
        ⟨[("c", ["a", "b"])], some (.standard [(FVal.fin 0, FVal.fin 1)]), some [true], none⟩
        [("x", ColData.nums [.fin 1])] (ColData.nums [.fin 0]) 1 "classification" =
      (⟨[("c", ["a", "b"])], some (.standard [(FVal.fin 0, FVal.fin 1)]), some [true], none⟩,
        some (maskTable [true] [("x", ColData.nums [.fin 1])],
          Table.colNames (maskTable [true] [("x", ColData.nums [.fin 1])]))) := by
  have h := c2_fit_once_apply_many id (fun _ _ => []) (fun _ _ => [])
    ⟨[("c", ["a", "b"])], some (.standard [(FVal.fin 0, FVal.fin 1)]), some [true], none⟩
    [("c", ColData.strs [some "a"])] [("x", ColData.nums [.fin 1])] (ColData.nums [.fin 0])
    none "label" "classification" 1
  have h2 := c2_fit_once_apply_many id (fun _ _ => []) (fun _ _ => [])
    ⟨[("c", ["a", "b"])], some (.standard [(FVal.fin 0, FVal.fin 1)]), some [true], none⟩
    [("x", ColData.nums [.fin 1])] [("x", ColData.nums [.fin 1])] (ColData.nums [.fin 0])
    none "standard" "classification" 1
  exact ⟨(h2.1 (.standard [(FVal.fin 0, FVal.fin 1)]) rfl).1,
    h.2.1 "c" ["a", "b"] rfl, h.2.2 [true] rfl⟩

/-- One loop iteration is the identity when the scanned column has no
null. -/
theorem hmStep_no_null (knn : List FVal → List FVal) (strategy : String) (df : Table)
    (acc : Table) (c : String) (hnull : ∀ q ∈ df, ColData.hasNull q.2 = false) :
    hmStep knn strategy df acc c = acc := by
  unfold hmStep
  cases hl : Table.lookup df c with
  | none => rfl
  | some cd =>
      dsimp only
      rw [hnull (c, cd) (lookup_mem df c cd hl)]
      simp

/-- One loop iteration does not touch a differently named column. -/
theorem hmStep_lookup_ne (knn : List FVal → List FVal) (strategy : String) (df : Table)
    (acc : Table) (c n : String) (hnc : n ≠ c) :
    Table.lookup (hmStep knn strategy df acc c) n = Table.lookup acc n := by
  unfold hmStep
  cases hl : Table.lookup df c with
  | none => rfl
  | some cd =>
      dsimp only
      by_cases hnull : cd.hasNull
      · rw [if_pos hnull]
        exact lookup_setCol_ne acc c n _ hnc
      · rw [if_neg hnull]

/-- What one loop iteration does to the scanned column itself. -/
theorem hmStep_lookup_self (knn : List FVal → List FVal) (strategy : String) (df : Table)
    (acc : Table) (n : String) :
    Table.lookup (hmStep knn strategy df acc n) n =
      (match Table.lookup df n with
        | some cd => if cd.hasNull then some (imputeColData knn strategy cd)
          else Table.lookup acc n
        | none => Table.lookup acc n) := by
  unfold hmStep
  cases hl : Table.lookup df n with
  | none => rfl
  | some cd =>
      dsimp only
      by_cases hnull : cd.hasNull
      · rw [if_pos hnull, if_pos hnull]
        exact lookup_setCol_self acc n _
      · rw [if_neg hnull, if_neg hnull]

/-- When no scanned column contains a null, the imputation loop leaves
the working frame untouched. -/
theorem hm_foldl_id (knn : List FVal → List FVal) (df : Table) (strategy : String)
    (hnull : ∀ q ∈ df, ColData.hasNull q.2 = false) (cols : List String) :
    ∀ acc : Table, cols.foldl (hmStep knn strategy df) acc = acc := by
  induction cols with
  | nil => intro acc; rfl
  | cons c cols ih =>
      intro acc
      rw [List.foldl_cons, hmStep_no_null knn strategy df acc c hnull]
      exact ih acc

/-- `handle_missing_values` is the identity on a frame without nulls. -/
theorem handleMissingValues_no_null (knn : List FVal → List FVal) (df : Table)
    (strategy : String) (hnull : ∀ q ∈ df, ColData.hasNull q.2 = false) :
    handleMissingValues knn df strategy none = df := by
  unfold handleMissingValues
  exact hm_foldl_id knn df strategy hnull (Table.colNames df) df

/-- A frame without object columns has no categorical columns to
encode. -/
theorem objectCols_eq_nil (df : Table) (hobj : ∀ q ∈ df, ColData.isStrs q.2 = false) :
    Table.objectCols df = [] := by
  unfold Table.objectCols
  rw [List.filter_eq_nil_iff.mpr fun q hq => by rw [hobj q hq]; exact Bool.false_ne_true]
  rfl

/-- Every listed column name resolves. -/
theorem colNames_lookup_isSome (t : Table) (n : String) (hn : n ∈ Table.colNames t) :
    ∃ cd, Table.lookup t n = some cd := by
  induction t with
  | nil => cases hn
  | cons x rest ih =>
      by_cases hx : n = x.1
      · subst hx
        exact ⟨x.2, lookup_cons_self x.1 x.2 rest⟩
      · have : n ∈ Table.colNames rest := by
          rcases List.mem_cons.mp hn with h | h
          · exact absurd h hx
          · exact h
        obtain ⟨cd, hcd⟩ := ih this
        refine ⟨cd, ?_⟩
        show ((x.1, x.2) :: rest).lookup n = some cd
        rw [lookup_cons_ne x.1 n x.2 rest hx]
        exact hcd

/-- Reindexing a frame with duplicate-free column names to its own
columns is the identity. -/
theorem reindex_colNames (df : Table) (hnodup : (Table.colNames df).Nodup) :
    reindex df (Table.colNames df) = df := by
  induction df with
  | nil => rfl
  | cons x rest ih =>
      rcases x with ⟨n, cd⟩
      have hcn : Table.colNames ((n, cd) :: rest) = n :: Table.colNames rest := rfl
      rw [hcn] at hnodup ⊢
      obtain ⟨hnmem, hnodup'⟩ := List.nodup_cons.mp hnodup
      unfold reindex
      rw [List.map_cons]
      have hhead : Table.lookup ((n, cd) :: rest) n = some cd := lookup_cons_self n cd rest
      rw [hhead]
      have htail : (Table.colNames rest).map (fun c => (c,
          (Table.lookup ((n, cd) :: rest) c).getD
            (.nums (List.replicate (nRows ((n, cd) :: rest)) (FVal.fin 0))))) =
          (Table.colNames rest).map (fun c => (c,
          (Table.lookup rest c).getD (.nums (List.replicate (nRows rest) (FVal.fin 0))))) := by
        apply List.map_congr_left
        intro c hc
        have hne : c ≠ n := fun h => hnmem (h ▸ hc)
        obtain ⟨v, hv⟩ := colNames_lookup_isSome rest c hc
        have : Table.lookup ((n, cd) :: rest) c = some v := by
          show ((n, cd) :: rest).lookup c = some v
          rw [lookup_cons_ne n c cd rest hne]
          exact hv
        rw [this, hv]
        rfl
      rw [htail]
      have : (Table.colNames rest).map (fun c => (c,
          (Table.lookup rest c).getD (.nums (List.replicate (nRows rest) (FVal.fin 0))))) =
          rest := ih hnodup'
      rw [this]
      rfl

/-- C3 counterexample: on a fresh (never-fitted) preprocessor, replay of
a frame holding one categorical column does not return the input
unchanged: the column is re-encoded with a freshly fitted label encoder
(and the returned state now carries that encoder). -/
theorem c3_unfitted_replay_counterexample :
    (transformNewData id id initPreprocessor [("c", ColData.strs [some "b", some "a"])]
        ["c"]).2 ≠ some [("c", ColData.strs [some "b", some "a"])] := by
  decide

/-- C3 (amended): replay on an unfitted preprocessor is not an error and
applies no scaling and no selection, but it does impute from the new
frame and does fit encoders on categorical columns; only on a frame
with no nulls and no object columns (and duplicate-free column names)
does it return the input unchanged, with the state still unfitted. -/
theorem c3_unfitted_replay_identity_without_nulls_and_categoricals (msqrt : ℚ → ℚ)
    (knn : List FVal → List FVal) (df : Table)
    (hnull : ∀ q ∈ df, ColData.hasNull q.2 = false)
    (hobj : ∀ q ∈ df, ColData.isStrs q.2 = false)
    (hnodup : (Table.colNames df).Nodup) :
    transformNewData msqrt knn initPreprocessor df (Table.colNames df) =
      (initPreprocessor, some df) := by
  unfold transformNewData
  rw [handleMissingValues_no_null knn df "mean" hnull]
  dsimp only
  rw [objectCols_eq_nil df hobj]
  simp [initPreprocessor, reindex_colNames df hnodup]

/-- Concrete run of the amended replay theorem: a purely numeric
null-free frame passes through unfitted replay unchanged. -/
theorem c3_unfitted_replay_identity_witness :
    transformNewData id id initPreprocessor [("x", ColData.nums [.fin 1, .fin 2])] ["x"] =
      (initPreprocessor, some [("x", ColData.nums [.fin 1, .fin 2])]) :=
  c3_unfitted_replay_identity_without_nulls_and_categoricals id id
    [("x", ColData.nums [.fin 1, .fin 2])] (by decide) (by decide) (by decide)

/-- The imputation loop does not touch a column it never scans. -/
theorem hm_foldl_lookup_notmem (knn : List FVal → List FVal) (df : Table) (strategy : String)
    (cols : List String) (n : String) (hn : n ∉ cols) :
    ∀ acc : Table,
      Table.lookup (cols.foldl (hmStep knn strategy df) acc) n = Table.lookup acc n := by
  induction cols with
  | nil => intro acc; rfl
  | cons c cols ih =>
      intro acc
      have hnc : n ≠ c := fun h => hn (h ▸ List.mem_cons_self c cols)
      have hn' : n ∉ cols := fun h => hn (List.mem_cons_of_mem c h)
      rw [List.foldl_cons, ih hn' _]
      exact hmStep_lookup_ne knn strategy df acc c n hnc

/-- The imputation loop rewrites a scanned column (under duplicate-free
column names) to its imputed form exactly when it has a null. -/
theorem hm_foldl_lookup_mem (knn : List FVal → List FVal) (df : Table) (strategy : String)
    (cols : List String) (n : String) (hnodup : cols.Nodup) (hn : n ∈ cols) :
    ∀ acc : Table,
      Table.lookup (cols.foldl (hmStep knn strategy df) acc) n =
      (match Table.lookup df n with
        | some cd => if cd.hasNull then some (imputeColData knn strategy cd)
          else Table.lookup acc n
        | none => Table.lookup acc n) := by
  induction cols with
  | nil => cases hn
  | cons c cols ih =>
      intro acc
      obtain ⟨hcn, hnodup'⟩ := List.nodup_cons.mp hnodup
      rw [List.foldl_cons]
      by_cases hnc : n = c
      · subst hnc
        rw [hm_foldl_lookup_notmem knn df strategy cols n hcn _]
        exact hmStep_lookup_self knn strategy df acc n
      · have hn' : n ∈ cols := by
          rcases List.mem_cons.mp hn with h | h
          · exact absurd h hnc
          · exact h
        rw [ih hnodup' hn' _]
        have hstep := hmStep_lookup_ne knn strategy df acc c n hnc
        cases hl : Table.lookup df n with
        | none => exact hstep
        | some cd =>
            dsimp only
            by_cases hnull : cd.hasNull
            · rw [if_pos hnull, if_pos hnull]
            · rw [if_neg hnull, if_neg hnull]
              exact hstep

/-- C6 counterexample: under `strategy='mean'` a null cell of a
categorical column is changed too (to the sentinel `'Unknown'`), so the
claim that no cell outside the null cells of numeric columns changes is
false on a frame with a nullable object column. -/
theorem c6_impute_mean_counterexample :
    handleMissingValues id [("a", ColData.strs [some "x", none])] "mean" none ≠
      [("a", ColData.strs [some "x", none])] := by
  decide

/-- C6 (amended): `impute` with the mean strategy fills every null cell
of a numeric column with that column's mean over its non-null cells,
fills every null cell of an object column with the sentinel `'Unknown'`,
changes no non-null cell, and leaves every column without nulls
completely unchanged (duplicate-free column names assumed, as pandas
guarantees). -/
theorem c6_impute_mean_fills_nulls_with_column_mean (knn : List FVal → List FVal) (df : Table)
    (hnodup : (Table.colNames df).Nodup) :
    (∀ n cd, Table.lookup df n = some cd → cd.hasNull = false →
      Table.lookup (handleMissingValues knn df "mean" none) n = some cd) ∧
    (∀ n xs, Table.lookup df n = some (.nums xs) →
      ∃ ys, Table.lookup (handleMissingValues knn df "mean" none) n = some (.nums ys) ∧
        ys.length = xs.length ∧
        (∀ i x, xs.get? i = some x → x.isNan = false → ys.get? i = some x) ∧
        (∀ i x, xs.get? i = some x → x.isNan = true → ys.get? i = some (colMeanF xs))) ∧
    (∀ n xs, Table.lookup df n = some (.strs xs) →
      ∃ ys, Table.lookup (handleMissingValues knn df "mean" none) n = some (.strs ys) ∧
        ys.length = xs.length ∧
        (∀ i x, xs.get? i = some (some x) → ys.get? i = some (some x)) ∧
        (∀ i, xs.get? i = some none → ys.get? i = some (some "Unknown"))) := by
  have hkey : ∀ n cd, Table.lookup df n = some cd →
      Table.lookup (handleMissingValues knn df "mean" none) n =
        (if cd.hasNull then some (imputeColData knn "mean" cd) else some cd) := by
    intro n cd h
    unfold handleMissingValues
    dsimp only
    rw [Option.getD_none]
    rw [hm_foldl_lookup_mem knn df "mean" (Table.colNames df) n hnodup
      (lookup_mem_colNames df n cd h) df]
    rw [h]
  refine ⟨fun n cd h hf => ?_, fun n xs h => ?_, fun n xs h => ?_⟩
  · rw [hkey n cd h, hf]
    simp
  · by_cases hnull : (ColData.nums xs).hasNull
    · refine ⟨fillnaF (colMeanF xs) xs, ?_, ?_, ?_, ?_⟩
      · rw [hkey n _ h, if_pos hnull]
        rfl
      · simp [fillnaF]
      · intro i x hx hnan
        unfold fillnaF
        rw [List.get?_map, hx]
        simp [hnan]
      · intro i x hx hnan
        unfold fillnaF
        rw [List.get?_map, hx]
        simp [hnan]
    · refine ⟨xs, ?_, rfl, fun i x hx _ => hx, fun i x hx hnan => ?_⟩
      · rw [hkey n _ h, if_neg hnull]
      · exfalso
        apply hnull
        have : x ∈ xs := List.get?_mem hx
        exact List.any_eq_true.mpr ⟨x, this, hnan⟩
  · by_cases hnull : (ColData.strs xs).hasNull
    · refine ⟨xs.map fun o => some (o.getD "Unknown"), ?_, ?_, ?_, ?_⟩
      · rw [hkey n _ h, if_pos hnull]
        rfl
      · simp
      · intro i x hx
        rw [List.get?_map, hx]
        rfl
      · intro i hx
        rw [List.get?_map, hx]
        rfl
    · refine ⟨xs, ?_, rfl, fun i x hx => hx, fun i hx => ?_⟩
      · rw [hkey n _ h, if_neg hnull]
      · exfalso
        apply hnull
        have : (none : Option String) ∈ xs := List.get?_mem hx
        exact List.any_eq_true.mpr ⟨none, this, rfl⟩

/-- Concrete run of the imputation theorem: a numeric column with mean
10 over its non-null cells and one null gets exactly 10 in that cell,
the other cells and the null-free column are unchanged. -/
theorem c6_impute_mean_fills_nulls_witness :
    Table.lookup (handleMissingValues id
        [("x", ColData.nums [.fin 5, .nan, .fin 15]), ("y", ColData.nums [.fin 1, .fin 2, .fin 3])]
        "mean" none) "y" = some (ColData.nums [.fin 1, .fin 2, .fin 3]) ∧
    ∃ ys, Table.lookup (handleMissingValues id
        [("x", ColData.nums [.fin 5, .nan, .fin 15]), ("y", ColData.nums [.fin 1, .fin 2, .fin 3])]
        "mean" none) "x" = some (ColData.nums ys) ∧
      ys.get? 0 = some (.fin 5) ∧ ys.get? 2 = some (.fin 15) ∧
      ys.get? 1 = some (colMeanF [.fin 5, .nan, .fin 15]) := by
  have h := c6_impute_mean_fills_nulls_with_column_mean id
    [("x", ColData.nums [.fin 5, .nan, .fin 15]), ("y", ColData.nums [.fin 1, .fin 2, .fin 3])]
    (by decide)
  obtain ⟨ys, hy, -, hkeep, hfill⟩ := h.2.1 "x" [.fin 5, .nan, .fin 15] (by decide)
  exact ⟨h.1 "y" (ColData.nums [.fin 1, .fin 2, .fin 3]) (by decide) (by decide),
    ys, hy, hkeep 0 (.fin 5) rfl rfl, hkeep 2 (.fin 15) rfl rfl, hfill 1 .nan rfl rfl⟩

/-- The encode loop never touches the fitted selector. -/
theorem encodeGo_feature_selector (method : String) (cols : List String) :
    ∀ (p : Preprocessor) (df : Table),
      ((encodeGo method p df cols).1).feature_selector = p.feature_selector := by
  induction cols with
  | nil => intro p df; rfl
  | cons c0 cols ih =>
      intro p df
      unfold encodeGo
      by_cases hm : method = "label"
      · rw [if_pos hm]
        split
        · rfl
        · split
          · rw [ih]
          · dsimp only
            split
            · rw [ih]
            · rfl
      · rw [if_neg hm]
        by_cases ho : method = "onehot"
        · rw [if_pos ho]
          split
          · rfl
          · rw [ih]
        · rw [if_neg ho]
          rw [ih]

/-- `encode_categorical_variables` never touches the fitted selector. -/
theorem ecv_feature_selector (p : Preprocessor) (df : Table) (columns : Option (List String))
    (method : String) :
    ((encodeCategoricalVariables p df columns method).1).feature_selector =
      p.feature_selector := by
  unfold encodeCategoricalVariables
  exact encodeGo_feature_selector method _ p df

/-- Target encoding never touches the fitted selector. -/
theorem targetEncode_feature_selector (p : Preprocessor) (y : ColData) :
    ((targetEncode p y).1).feature_selector = p.feature_selector := by
  unfold targetEncode
  split
  · dsimp only
    split
    · rfl
    · split
      · rfl
      · rfl
  · rfl

/-- Scaling never touches the fitted selector. -/
theorem scaleFeatures_feature_selector (msqrt : ℚ → ℚ) (p : Preprocessor) (df : Table)
    (columns : Option (List String)) (method : String) :
    ((scaleFeatures msqrt p df columns method).1).feature_selector = p.feature_selector := by
  unfold scaleFeatures
  split
  · split
    · rfl
    · rfl
  · split
    · split
      · rfl
      · rfl
    · rfl

/-- No stage before feature selection touches the fitted selector. -/
theorem pipelinePre_feature_selector (msqrt : ℚ → ℚ) (knn : List FVal → List FVal)
    (p : Preprocessor) (df : Table) (targetColumn : String)
    (missingStrategy encodingMethod scalingMethod taskType : String) :
    ((pipelinePre msqrt knn p df targetColumn missingStrategy encodingMethod scalingMethod
      taskType).1).feature_selector = p.feature_selector := by
  unfold pipelinePre
  split
  · rfl
  · rename_i y hy
    dsimp only
    set X1 := handleMissingValues knn (Table.dropCol df targetColumn) missingStrategy none
    set r1 := (if Table.objectCols X1 ≠ [] then
        encodeCategoricalVariables p X1 (some (Table.objectCols X1)) encodingMethod
      else (p, some X1)) with hr1def
    have h1 : (r1.1).feature_selector = p.feature_selector := by
      rw [hr1def]
      split
      · exact ecv_feature_selector p X1 (some (Table.objectCols X1)) encodingMethod
      · rfl
    cases h2 : r1.2 with
    | none => exact h1
    | some X2 =>
        dsimp only
        set r2 := (if taskType = "classification" ∧ y.isStrs then targetEncode r1.1 y
          else (r1.1, some y)) with hr2def
        have h2' : (r2.1).feature_selector = p.feature_selector := by
          rw [hr2def]
          split
          · rw [targetEncode_feature_selector]
            exact h1
          · exact h1
        cases h3 : r2.2 with
        | none => exact h2'
        | some y2 =>
            dsimp only
            split
            · rw [scaleFeatures_feature_selector]
              exact h2'
            · exact h2'

unseal Rat.mul Rat.inv Rat.add Rat.sub in
/-- C4 counterexample: asking the pipeline for 5 features out of 2
available on a 3-column frame with numeric target does not report an
error and does not abort: the call succeeds and returns every feature
column untouched by selection. -/
theorem c4_oversized_k_counterexample :
    (preprocessPipeline id id (fun _ _ => []) (fun _ _ => []) (fun X y _ _ => (X, X, y, y))
        initPreprocessor
        [("a", ColData.nums [.fin 1, .fin 3]), ("b", ColData.nums [.fin 0, .fin 0]),
          ("t", ColData.nums [.fin 0, .fin 1])]
        "t" 0 "mean" "label" "standard" (some 5) "regression").2 ≠ none ∧
    ((preprocessPipeline id id (fun _ _ => []) (fun _ _ => []) (fun X y _ _ => (X, X, y, y))
        initPreprocessor
        [("a", ColData.nums [.fin 1, .fin 3]), ("b", ColData.nums [.fin 0, .fin 0]),
          ("t", ColData.nums [.fin 0, .fin 1])]
        "t" 0 "mean" "label" "standard" (some 5) "regression").2).map Prod.snd =
      some ["a", "b"] := by
  constructor
  · decide
  · decide

/-- C4 (amended): when the requested feature count `k` is at least the
number of available feature columns, `preprocess_pipeline` silently
skips the feature-selection step: the call does not error, it returns
every column produced by the earlier stages as the feature list, and no
selector is fitted (the selector state is exactly what it was before the
call).  No configuration error is reported. -/
theorem c4_oversized_k_silently_skips_selection (msqrt : ℚ → ℚ) (knn : List FVal → List FVal)
    (fClassif fRegression : Table → ColData → List ℚ)
    (tts : Table → ColData → ℚ → Bool → Table × Table × ColData × ColData)
    (p p3 : Preprocessor) (df X3 : Table) (y2 : ColData) (targetColumn : String) (testSize : ℚ)
    (missingStrategy encodingMethod scalingMethod taskType : String) (k : ℕ)
    (hpre : pipelinePre msqrt knn p df targetColumn missingStrategy encodingMethod
      scalingMethod taskType = (p3, some (X3, y2)))
    (hk : X3.length ≤ k) :
    preprocessPipeline msqrt knn fClassif fRegression tts p df targetColumn testSize
        missingStrategy encodingMethod scalingMethod (some k) taskType =
      (p3, some (tts X3 y2 testSize (taskType = "classification"), Table.colNames X3)) ∧
    p3.feature_selector = p.feature_selector := by
  constructor
  · unfold preprocessPipeline
    rw [hpre]
    dsimp only
    have hdec : decide (k < X3.length) = false := decide_eq_false (Nat.not_lt.mpr hk)
    rw [hdec, Bool.and_false, if_neg Bool.false_ne_true]
  · have := pipelinePre_feature_selector msqrt knn p df targetColumn missingStrategy
      encodingMethod scalingMethod taskType
    rw [hpre] at this
    exact this

unseal Rat.mul Rat.inv Rat.add Rat.sub in
/-- Concrete run of the skip theorem: with two feature columns and
`k = 5` the pipeline returns both columns and a state whose selector is
still unfitted. -/
theorem c4_oversized_k_silently_skips_selection_witness :
    preprocessPipeline id id (fun _ _ => []) (fun _ _ => []) (fun X y _ _ => (X, X, y, y))
        initPreprocessor
        [("a", ColData.nums [.fin 1, .fin 3]), ("b", ColData.nums [.fin 0, .fin 0]),
          ("t", ColData.nums [.fin 0, .fin 1])]
        "t" 0 "mean" "label" "standard" (some 5) "regression" =
      (⟨[], some (.standard [(FVal.fin 2, FVal.fin 1), (FVal.fin 0, FVal.fin 1)]), none, none⟩,
        some ((fun X y (_ : ℚ) (_ : Bool) => (X, X, y, y))
          [("a", ColData.nums [.fin (-1), .fin 1]), ("b", ColData.nums [.fin 0, .fin 0])]
          (ColData.nums [.fin 0, .fin 1]) 0 false,
          Table.colNames [("a", ColData.nums [.fin (-1), .fin 1]),
            ("b", ColData.nums [.fin 0, .fin 0])])) := by
  have h := c4_oversized_k_silently_skips_selection id id (fun _ _ => []) (fun _ _ => [])
    (fun X y _ _ => (X, X, y, y)) initPreprocessor
    ⟨[], some (.standard [(FVal.fin 2, FVal.fin 1), (FVal.fin 0, FVal.fin 1)]), none, none⟩
    [("a", ColData.nums [.fin 1, .fin 3]), ("b", ColData.nums [.fin 0, .fin 0]),
      ("t", ColData.nums [.fin 0, .fin 1])]
    [("a", ColData.nums [.fin (-1), .fin 1]), ("b", ColData.nums [.fin 0, .fin 0])]
    (ColData.nums [.fin 0, .fin 1]) "t" 0 "mean" "label" "standard" "regression" 5
    (by decide) (by decide)
  exact h.1.trans rfl

/-- Elementwise access of `zipWith`. -/
theorem zipWith_get? {α β γ : Type} (f : α → β → γ) (as : List α) (bs : List β) (n : ℕ) :
    (List.zipWith f as bs).get? n =
      match as.get? n, bs.get? n with
      | some a, some b => some (f a b)
      | _, _ => none := by
  induction as generalizing bs n with
  | nil => cases bs <;> cases n <;> rfl
  | cons a as ih =>
      cases bs with
      | nil =>
          cases n with
          | zero => rfl
          | succ n => cases has : (a :: as).get? (n + 1) <;> rfl
      | cons b bs =>
          cases n with
          | zero => rfl
          | succ n => exact ih bs n

/-- In-range access returns the default-access value. -/
theorem get?_eq_getD {α : Type} (l : List α) (n : ℕ) (d : α) (h : n < l.length) :
    l.get? n = some (l.getD n d) := by
  rw [List.getD_eq_get?]
  cases hx : l.get? n with
  | none =>
      rw [List.get?_eq_none] at hx
      omega
  | some v => rfl

/-- Elementwise access of a rolling mean in range. -/
theorem rollingMean_get? (w : ℕ) (xs : List FVal) (i : ℕ) (h : i < xs.length) :
    (rollingMean w xs).get? i =
      some (if i + 1 < w then FVal.nan
        else FVal.div (sumF (window w i xs)) (FVal.fin w)) := by
  unfold rollingMean
  rw [List.get?_map, List.get?_range h]
  rfl

/-- The rolling window has full length once it fits. -/
theorem window_length (w i : ℕ) (xs : List FVal) (hw : w ≤ i + 1) (h : i < xs.length) :
    (window w i xs).length = w := by
  unfold window
  rw [List.length_take, List.length_drop]
  omega

/-- Every window element is a series element at a window offset. -/
theorem mem_window (w i : ℕ) (xs : List FVal) (x : FVal) (hx : x ∈ window w i xs) :
    ∃ k, k < w ∧ xs.get? (i + 1 - w + k) = some x := by
  obtain ⟨⟨k, hk⟩, hget⟩ := List.mem_iff_get.mp hx
  refine ⟨k, ?_, ?_⟩
  · have := hk
    unfold window at this
    rw [List.length_take] at this
    omega
  · have hk' : (window w i xs).get? k = some x := by
      rw [List.get?_eq_get hk]
      rw [hget]
    unfold window at hk'
    have hkw : k < w := by
      have := hk
      unfold window at this
      rw [List.length_take] at this
      omega
    rw [List.get?_take hkw, List.get?_drop] at hk'
    exact hk'

/-- The sum of all-zero cells is zero. -/
theorem sumF_zero (l : List FVal) (h : ∀ x ∈ l, x = FVal.fin 0) : sumF l = FVal.fin 0 := by
  induction l with
  | nil => rfl
  | cons x l ih =>
      unfold sumF at ih ⊢
      rw [List.foldr_cons, ih (fun y hy => h y (List.mem_cons_of_mem x hy)),
        h x (List.mem_cons_self x l)]
      show FVal.fin (0 + 0) = FVal.fin 0
      norm_num

/-- The sum of finitely many positive finite cells is positive and
finite. -/
theorem sumF_pos (l : List FVal) (hne : l ≠ [])
    (h : ∀ x ∈ l, ∃ q : ℚ, x = FVal.fin q ∧ 0 < q) :
    ∃ S : ℚ, sumF l = FVal.fin S ∧ 0 < S := by
  induction l with
  | nil => exact absurd rfl hne
  | cons x l ih =>
      obtain ⟨q, hq, hqpos⟩ := h x (List.mem_cons_self x l)
      cases l with
      | nil =>
          refine ⟨q, ?_, hqpos⟩
          unfold sumF
          rw [List.foldr_cons, List.foldr_nil, hq]
          show FVal.fin (q + 0) = FVal.fin q
          norm_num
      | cons y l' =>
          obtain ⟨S, hS, hSpos⟩ := ih (by simp)
            (fun z hz => h z (List.mem_cons_of_mem x hz))
          refine ⟨q + S, ?_, by positivity⟩
          unfold sumF at hS ⊢
          rw [List.foldr_cons, hS, hq]
          rfl

/-- `diff` preserves the series length. -/
theorem diffF_length (xs : List FVal) : (diffF xs).length = xs.length := by
  cases xs with
  | nil => rfl
  | cons x xs =>
      show (FVal.nan :: List.zipWith FVal.sub xs (x :: xs)).length = (x :: xs).length
      rw [List.length_cons, List.length_zipWith, List.length_cons]
      omega

/-- `diff` at a positive index subtracts the previous element. -/
theorem diffF_get?_succ (xs : List FVal) (j : ℕ) :
    (diffF xs).get? (j + 1) =
      match xs.get? (j + 1), xs.get? j with
      | some a, some b => some (FVal.sub a b)
      | _, _ => none := by
  cases xs with
  | nil => cases j <;> rfl
  | cons x xs =>
      show (List.zipWith FVal.sub xs (x :: xs)).get? j = _
      rw [zipWith_get?, List.get?_cons_succ]
      cases xs.get? j <;> cases (x :: xs).get? j <;> rfl

theorem gainsOf_length (xs : List FVal) : (gainsOf xs).length = xs.length := by
  unfold gainsOf
  rw [List.length_map, diffF_length]

theorem lossesOf_length (xs : List FVal) : (lossesOf xs).length = xs.length := by
  unfold lossesOf
  rw [List.length_map, List.length_map, diffF_length]

/-- Division of finite cells with a nonzero divisor. -/
theorem fvalDiv_fin_fin (a b : ℚ) (hb : b ≠ 0) :
    FVal.div (FVal.fin a) (FVal.fin b) = FVal.fin (a / b) := by
  show (if b = 0 then (if a = 0 then FVal.nan else FVal.inf (decide (0 < a)))
    else FVal.fin (a / b)) = FVal.fin (a / b)
  rw [if_neg hb]

/-- Division of a positive finite cell by a zero cell is `+inf`. -/
theorem fvalDiv_pos_zero (a : ℚ) (ha : 0 < a) :
    FVal.div (FVal.fin a) (FVal.fin 0) = FVal.inf true := by
  show (if (0 : ℚ) = 0 then (if a = 0 then FVal.nan else FVal.inf (decide (0 < a)))
    else FVal.fin (a / 0)) = FVal.inf true
  rw [if_pos rfl, if_neg (ne_of_gt ha), decide_eq_true ha]

/-- Closed form of one RSI cell once the rolling window fits. -/
theorem rsiOfClose_get? (xs : List FVal) (i : ℕ) (h : i < xs.length) (hi : 14 ≤ i + 1) :
    (rsiOfClose xs).get? i =
      some (FVal.sub (FVal.fin 100) (FVal.div (FVal.fin 100) (FVal.add (FVal.fin 1)
        (FVal.div (FVal.div (sumF (window 14 i (gainsOf xs))) (FVal.fin ((14 : ℕ) : ℚ)))
          (FVal.div (sumF (window 14 i (lossesOf xs))) (FVal.fin ((14 : ℕ) : ℚ))))))) := by
  unfold rsiOfClose
  rw [List.get?_map, zipWith_get?]
  rw [rollingMean_get? 14 (gainsOf xs) i (by rw [gainsOf_length]; exact h)]
  rw [rollingMean_get? 14 (lossesOf xs) i (by rw [lossesOf_length]; exact h)]
  rw [if_neg (by omega), if_neg (by omega)]
  rfl

/-- C5: at a row whose preceding 14 close-to-close changes are all
strictly positive the computed RSI is exactly 100 (the zero mean loss
makes `gain/loss` a positive infinity and `100 - 100/(1 + inf)` is
100), and at a row whose preceding 14 changes are all strictly negative
the computed RSI is exactly 0. -/
theorem c5_rsi_boundary_values (cs : List ℚ) (i : ℕ) (hi : 14 ≤ i) (hlen : i < cs.length) :
    ((∀ k, k < 14 → cs.getD (i - 14 + k) 0 < cs.getD (i - 14 + k + 1) 0) →
      (rsiOfClose (cs.map FVal.fin)).get? i = some (FVal.fin 100)) ∧
    ((∀ k, k < 14 → cs.getD (i - 14 + k + 1) 0 < cs.getD (i - 14 + k) 0) →
      (rsiOfClose (cs.map FVal.fin)).get? i = some (FVal.fin 0)) := by
  have hxlen : (cs.map FVal.fin).length = cs.length := List.length_map cs _
  have hdelta : ∀ k, k < 14 →
      (diffF (cs.map FVal.fin)).get? (i - 14 + k + 1) =
        some (FVal.fin (cs.getD (i - 14 + k + 1) 0 + -(cs.getD (i - 14 + k) 0))) := by
    intro k hk
    rw [diffF_get?_succ]
    rw [List.get?_map, List.get?_map]
    rw [get?_eq_getD cs (i - 14 + k + 1) 0 (by omega)]
    rw [get?_eq_getD cs (i - 14 + k) 0 (by omega)]
    rfl
  have hidx : ∀ k, k < 14 → i + 1 - 14 + k = i - 14 + k + 1 := by omega
  constructor
  · intro hup
    have hgwin : ∀ x ∈ window 14 i (gainsOf (cs.map FVal.fin)),
        ∃ q : ℚ, x = FVal.fin q ∧ 0 < q := by
      intro x hx
      obtain ⟨k, hk, hget⟩ := mem_window 14 i _ x hx
      rw [hidx k hk] at hget
      unfold gainsOf at hget
      rw [List.get?_map, hdelta k hk, Option.map_some'] at hget
      have hpos : 0 < cs.getD (i - 14 + k + 1) 0 + -(cs.getD (i - 14 + k) 0) := by
        have := hup k hk
        linarith
      refine ⟨cs.getD (i - 14 + k + 1) 0 + -(cs.getD (i - 14 + k) 0), ?_, hpos⟩
      have hblt : FVal.blt (FVal.fin 0)
          (FVal.fin (cs.getD (i - 14 + k + 1) 0 + -(cs.getD (i - 14 + k) 0))) = true := by
        show decide ((0 : ℚ) < cs.getD (i - 14 + k + 1) 0 + -(cs.getD (i - 14 + k) 0)) = true
        exact decide_eq_true hpos
      rw [hblt, if_pos rfl] at hget
      exact (Option.some_injective _ hget).symm
    have hlwin : ∀ x ∈ window 14 i (lossesOf (cs.map FVal.fin)), x = FVal.fin 0 := by
      intro x hx
      obtain ⟨k, hk, hget⟩ := mem_window 14 i _ x hx
      rw [hidx k hk] at hget
      unfold lossesOf at hget
      rw [List.get?_map, List.get?_map, hdelta k hk, Option.map_some', Option.map_some']
        at hget
      have hpos : 0 < cs.getD (i - 14 + k + 1) 0 + -(cs.getD (i - 14 + k) 0) := by
        have := hup k hk
        linarith
      have hblt : FVal.blt
          (FVal.fin (cs.getD (i - 14 + k + 1) 0 + -(cs.getD (i - 14 + k) 0)))
          (FVal.fin 0) = false := by
        show decide (cs.getD (i - 14 + k + 1) 0 + -(cs.getD (i - 14 + k) 0) < (0 : ℚ)) = false
        exact decide_eq_false (by linarith)
      rw [hblt, if_neg Bool.false_ne_true] at hget
      have hx0 : FVal.neg (FVal.fin 0) = x := Option.some_injective _ hget
      rw [← hx0]
      show FVal.fin (-0) = FVal.fin 0
      norm_num
    have hne : window 14 i (gainsOf (cs.map FVal.fin)) ≠ [] := by
      have hwl := window_length 14 i (gainsOf (cs.map FVal.fin)) (by omega)
        (by rw [gainsOf_length, hxlen]; exact hlen)
      intro hcon
      rw [hcon] at hwl
      simp at hwl
    obtain ⟨S, hS, hSpos⟩ := sumF_pos _ hne hgwin
    have hL : sumF (window 14 i (lossesOf (cs.map FVal.fin))) = FVal.fin 0 :=
      sumF_zero _ hlwin
    rw [rsiOfClose_get? (cs.map FVal.fin) i (by rw [hxlen]; exact hlen) (by omega)]
    rw [hS, hL]
    rw [fvalDiv_fin_fin S _ (by norm_num), fvalDiv_fin_fin 0 _ (by norm_num)]
    rw [zero_div]
    rw [fvalDiv_pos_zero _ (by positivity)]
    have e4 : FVal.add (FVal.fin 1) (FVal.inf true) = FVal.inf true := rfl
    have e5 : FVal.div (FVal.fin 100) (FVal.inf true) = FVal.fin 0 := rfl
    rw [e4, e5]
    show some (FVal.fin (100 + -0)) = some (FVal.fin 100)
    norm_num
  · intro hdown
    have hgwin : ∀ x ∈ window 14 i (gainsOf (cs.map FVal.fin)), x = FVal.fin 0 := by
      intro x hx
      obtain ⟨k, hk, hget⟩ := mem_window 14 i _ x hx
      rw [hidx k hk] at hget
      unfold gainsOf at hget
      rw [List.get?_map, hdelta k hk, Option.map_some'] at hget
      have hneg : cs.getD (i - 14 + k + 1) 0 + -(cs.getD (i - 14 + k) 0) < 0 := by
        have := hdown k hk
        linarith
      have hblt : FVal.blt (FVal.fin 0)
          (FVal.fin (cs.getD (i - 14 + k + 1) 0 + -(cs.getD (i - 14 + k) 0))) = false := by
        show decide ((0 : ℚ) < cs.getD (i - 14 + k + 1) 0 + -(cs.getD (i - 14 + k) 0)) = false
        exact decide_eq_false (by linarith)
      rw [hblt, if_neg Bool.false_ne_true] at hget
      exact (Option.some_injective _ hget).symm
    have hlwin : ∀ x ∈ window 14 i (lossesOf (cs.map FVal.fin)),
        ∃ q : ℚ, x = FVal.fin q ∧ 0 < q := by
      intro x hx
      obtain ⟨k, hk, hget⟩ := mem_window 14 i _ x hx
      rw [hidx k hk] at hget
      unfold lossesOf at hget
      rw [List.get?_map, List.get?_map, hdelta k hk, Option.map_some', Option.map_some']
        at hget
      have hneg : cs.getD (i - 14 + k + 1) 0 + -(cs.getD (i - 14 + k) 0) < 0 := by
        have := hdown k hk
        linarith
      have hblt : FVal.blt
          (FVal.fin (cs.getD (i - 14 + k + 1) 0 + -(cs.getD (i - 14 + k) 0)))
          (FVal.fin 0) = true := by
        show decide (cs.getD (i - 14 + k + 1) 0 + -(cs.getD (i - 14 + k) 0) < (0 : ℚ)) = true
        exact decide_eq_true hneg
      rw [hblt, if_pos rfl] at hget
      refine ⟨-(cs.getD (i - 14 + k + 1) 0 + -(cs.getD (i - 14 + k) 0)), ?_, by linarith⟩
      exact (Option.some_injective _ hget).symm
    have hne : window 14 i (lossesOf (cs.map FVal.fin)) ≠ [] := by
      have hwl := window_length 14 i (lossesOf (cs.map FVal.fin)) (by omega)
        (by rw [lossesOf_length, hxlen]; exact hlen)
      intro hcon
      rw [hcon] at hwl
      simp at hwl
    obtain ⟨L, hL, hLpos⟩ := sumF_pos _ hne hlwin
    have hG : sumF (window 14 i (gainsOf (cs.map FVal.fin))) = FVal.fin 0 :=
      sumF_zero _ hgwin
    rw [rsiOfClose_get? (cs.map FVal.fin) i (by rw [hxlen]; exact hlen) (by omega)]
    rw [hG, hL]
    rw [fvalDiv_fin_fin 0 _ (by norm_num), fvalDiv_fin_fin L _ (by norm_num)]
    rw [zero_div]
    rw [fvalDiv_fin_fin 0 _ (by positivity), zero_div]
    have e4 : FVal.add (FVal.fin 1) (FVal.fin 0) = FVal.fin 1 := by
      show FVal.fin (1 + 0) = FVal.fin 1
      norm_num
    rw [e4]
    rw [fvalDiv_fin_fin 100 1 (by norm_num)]
    rw [div_one]
    show some (FVal.fin (100 + -100)) = some (FVal.fin 0)
    norm_num

/-- Concrete run of the RSI boundary theorem: fifteen strictly
increasing closes give RSI exactly 100 at row 14, fifteen strictly
decreasing closes give RSI exactly 0. -/
theorem c5_rsi_boundary_values_witness :
    (rsiOfClose (((List.range 15).map fun n => (n : ℚ)).map FVal.fin)).get? 14 =
      some (FVal.fin 100) ∧
    (rsiOfClose (((List.range 15).map fun n => -(n : ℚ)).map FVal.fin)).get? 14 =
      some (FVal.fin 0) :=
  ⟨(c5_rsi_boundary_values ((List.range 15).map fun n => (n : ℚ)) 14 (by decide)
      (by decide)).1 (by decide),
   (c5_rsi_boundary_values ((List.range 15).map fun n => -(n : ℚ)) 14 (by decide)
      (by decide)).2 (by decide)⟩

/-- A price-series-shaped frame: a column named `Date` has datetime
dtype, every other column is numeric (the shape of fetched stock data,
preserved by every feature-engineering step). -/
def PriceShaped (t : Table) : Prop :=
  ∀ q ∈ t, (q.1 = "Date" → q.2.isDates = true) ∧ (q.1 ≠ "Date" → q.2.isNums = true)

theorem keepRows_isNums (keep : ℕ → Bool) (c : ColData) :
    (c.keepRows keep).isNums = c.isNums := by
  cases c <;> rfl

theorem keepRows_isDates (keep : ℕ → Bool) (c : ColData) :
    (c.keepRows keep).isDates = c.isDates := by
  cases c <;> rfl

/-- Assigning a numeric column under a non-`Date` name preserves the
price shape. -/
theorem priceShaped_setCol (t : Table) (n : String) (xs : List FVal) (hn : n ≠ "Date")
    (h : PriceShaped t) : PriceShaped (Table.setCol t n (.nums xs)) := by
  induction t with
  | nil =>
      intro q hq
      rcases List.mem_singleton.mp hq with rfl
      exact ⟨fun hd => absurd hd hn, fun _ => rfl⟩
  | cons x rest ih =>
      rcases x with ⟨m, c⟩
      by_cases hm : m = n
      · rw [Table.setCol, if_pos hm]
        intro q hq
        rcases List.mem_cons.mp hq with rfl | hq
        · exact ⟨fun hd => absurd hd hn, fun _ => rfl⟩
        · exact h q (List.mem_cons_of_mem _ hq)
      · rw [Table.setCol, if_neg hm]
        intro q hq
        rcases List.mem_cons.mp hq with rfl | hq
        · exact h (m, c) (List.mem_cons_self _ rest)
        · exact ih (fun p hp => h p (List.mem_cons_of_mem _ hp)) q hq

/-- Keeping rows preserves the price shape. -/
theorem priceShaped_keepRows (t : Table) (keep : ℕ → Bool) (h : PriceShaped t) :
    PriceShaped (Table.keepRows t keep) := by
  intro q hq
  obtain ⟨p, hp, rfl⟩ := List.mem_map.mp hq
  obtain ⟨h1, h2⟩ := h p hp
  exact ⟨fun hd => by rw [keepRows_isDates]; exact h1 hd,
    fun hd => by rw [keepRows_isNums]; exact h2 hd⟩

/-- `dropna(subset=...)` preserves the price shape. -/
theorem priceShaped_dropnaSubset (t : Table) (n : String) (h : PriceShaped t) :
    PriceShaped (Table.dropnaSubset t n) := by
  unfold Table.dropnaSubset
  cases Table.lookup t n with
  | none => exact h
  | some c => exact priceShaped_keepRows t _ h

/-- `add_technical_indicators` preserves the price shape (it only adds
numeric columns under indicator names). -/
theorem priceShaped_addTech (msqrt : ℚ → ℚ) (t : Table) (h : PriceShaped t) :
    PriceShaped (addTechnicalIndicators msqrt t) := by
  unfold addTechnicalIndicators
  split
  · dsimp only
    repeat apply priceShaped_setCol _ _ _ (by decide)
    exact h
  · exact h

/-- `create_classification_target` preserves the price shape. -/
theorem priceShaped_classTarget (msqrt : ℚ → ℚ) (t : Table) (method : String) (periods : ℕ)
    (h : PriceShaped t) : PriceShaped (createClassificationTarget msqrt t method periods) := by
  unfold createClassificationTarget
  by_cases h1 : method = "price_direction"
  · rw [if_pos h1]
    split
    · exact priceShaped_dropnaSubset _ _ (priceShaped_setCol _ _ _ (by decide) h)
    · exact h
  · rw [if_neg h1]
    by_cases h2 : method = "price_movement"
    · rw [if_pos h2]
      split
      · exact priceShaped_dropnaSubset _ _ (priceShaped_setCol _ _ _ (by decide) h)
      · exact h
    · rw [if_neg h2]
      by_cases h3 : method = "volatility_breakout"
      · rw [if_pos h3]
        dsimp only
        split
        · exact priceShaped_dropnaSubset _ _ (priceShaped_setCol _ _ _ (by decide)
            (priceShaped_addTech msqrt t h))
        · exact h
      · rw [if_neg h3]
        exact h

/-- `create_regression_target` preserves the price shape. -/
theorem priceShaped_regTarget (msqrt : ℚ → ℚ) (t : Table) (targetType : String) (periods : ℕ)
    (h : PriceShaped t) : PriceShaped (createRegressionTarget msqrt t targetType periods) := by
  unfold createRegressionTarget
  by_cases h1 : targetType = "next_close"
  · rw [if_pos h1]
    split
    · exact priceShaped_dropnaSubset _ _ (priceShaped_setCol _ _ _ (by decide) h)
    · exact h
  · rw [if_neg h1]
    by_cases h2 : targetType = "return"
    · rw [if_pos h2]
      split
      · exact priceShaped_dropnaSubset _ _ (priceShaped_setCol _ _ _ (by decide) h)
      · exact h
    · rw [if_neg h2]
      by_cases h3 : targetType = "volatility"
      · rw [if_pos h3]
        split
        · exact priceShaped_dropnaSubset _ _ (priceShaped_setCol _ _ _ (by decide) h)
        · exact h
      · rw [if_neg h3]
        exact h

/-- Elements surviving a row filter come from a kept original index. -/
theorem filterIdx_mem {α : Type} (xs : List α) (keep : ℕ → Bool) (v : α)
    (hv : v ∈ ((List.range xs.length).filter keep).filterMap xs.get?) :
    ∃ i, keep i = true ∧ xs.get? i = some v := by
  obtain ⟨i, hi, hget⟩ := List.mem_filterMap.mp hv
  exact ⟨i, (List.mem_filter.mp hi).2, hget⟩

/-- After `dropna()` no surviving column holds a null cell. -/
theorem dropna_no_null (t : Table) : ∀ q ∈ Table.dropna t, q.2.hasNull = false := by
  intro q hq
  unfold Table.dropna Table.keepRows at hq
  obtain ⟨p, hp, rfl⟩ := List.mem_map.mp hq
  have hrowcol : ∀ i, Table.rowHasNull t i = false → p.2.nullAt i = false := by
    intro i hrow
    have := List.any_eq_false.mp hrow p hp
    simpa using this
  cases hc : p.2 with
  | nums xs =>
      show ((ColData.nums xs).keepRows fun i => !t.rowHasNull i).hasNull = false
      unfold ColData.keepRows ColData.hasNull
      rw [List.any_eq_false]
      intro v hv
      obtain ⟨i, hkeep, hget⟩ := filterIdx_mem xs _ v hv
      have hrow : Table.rowHasNull t i = false := by simpa using hkeep
      have hnull := hrowcol i hrow
      rw [hc] at hnull
      have hred : (ColData.nums xs).nullAt i = (xs.get? i).elim false FVal.isNan := rfl
      rw [hred, hget] at hnull
      simpa using hnull
  | strs xs =>
      show ((ColData.strs xs).keepRows fun i => !t.rowHasNull i).hasNull = false
      unfold ColData.keepRows ColData.hasNull
      rw [List.any_eq_false]
      intro v hv
      obtain ⟨i, hkeep, hget⟩ := filterIdx_mem xs _ v hv
      have hrow : Table.rowHasNull t i = false := by simpa using hkeep
      have hnull := hrowcol i hrow
      rw [hc] at hnull
      have hred : (ColData.strs xs).nullAt i = (xs.get? i).elim false Option.isNone := rfl
      rw [hred, hget] at hnull
      intro hcon
      have hns : v.isSome = true := by simpa using hnull
      rw [Option.isNone_iff_eq_none] at hcon
      rw [hcon] at hns
      cases hns
  | dates xs =>
      show ((ColData.dates xs).keepRows fun i => !t.rowHasNull i).hasNull = false
      rfl

/-- The column-drop-and-`dropna` tail of `prepare_ml_dataset`: on a
price-shaped frame every surviving column is numeric and null-free. -/
theorem dropPhase_numeric_no_null (df : Table) (h : PriceShaped df) :
    ∀ q ∈ Table.dropna (df.filter fun p => p.1 ≠ "Date" ∧ ¬(p.2.isStrs ∧ p.1 ≠ "Target")),
      q.2.isNums = true ∧ q.2.hasNull = false := by
  intro q hq
  refine ⟨?_, dropna_no_null _ q hq⟩
  unfold Table.dropna Table.keepRows at hq
  obtain ⟨p, hp, rfl⟩ := List.mem_map.mp hq
  have hmem := List.mem_filter.mp hp
  have hpred := hmem.2
  have hne : p.1 ≠ "Date" := by
    simp only [decide_eq_true_eq] at hpred
    exact hpred.1
  rw [keepRows_isNums]
  exact (h p hmem.1).2 hne

/-- C8: on every price-shaped input series, for every task type, target
method, look-ahead and indicator flag, the frame returned by
`prepare_ml_dataset` holds only numeric columns (the timestamp and any
other non-numeric column having been dropped) and no null cell in any
column. -/
theorem c8_prepared_dataset_numeric_and_null_free (msqrt : ℚ → ℚ) (t : Table)
    (taskType targetMethod : String) (periods : ℕ) (includeTechnicalIndicators : Bool)
    (h : PriceShaped t) :
    ∀ q ∈ prepareMlDataset msqrt t taskType targetMethod periods
        includeTechnicalIndicators,
      q.2.isNums = true ∧ q.2.hasNull = false := by
  unfold prepareMlDataset
  dsimp only
  have h1 : PriceShaped (if includeTechnicalIndicators then addTechnicalIndicators msqrt t
      else t) := by
    split
    · exact priceShaped_addTech msqrt t h
    · exact h
  have h2 : PriceShaped (if taskType = "classification" then
      createClassificationTarget msqrt (if includeTechnicalIndicators then
        addTechnicalIndicators msqrt t else t) targetMethod periods
    else createRegressionTarget msqrt (if includeTechnicalIndicators then
      addTechnicalIndicators msqrt t else t) targetMethod periods) := by
    split
    · exact priceShaped_classTarget msqrt _ targetMethod periods h1
    · exact priceShaped_regTarget msqrt _ targetMethod periods h1
  set df2 := (if taskType = "classification" then
      createClassificationTarget msqrt (if includeTechnicalIndicators then
        addTechnicalIndicators msqrt t else t) targetMethod periods
    else createRegressionTarget msqrt (if includeTechnicalIndicators then
      addTechnicalIndicators msqrt t else t) targetMethod periods) with hdf2
  cases hlk : Table.lookup df2 "Date" with
  | none => exact dropPhase_numeric_no_null df2 h2
  | some c =>
      have hdates : c.isDates = true :=
        (h2 ("Date", c) (lookup_mem df2 "Date" c hlk)).1 rfl
      cases hc : c with
      | nums xs => rw [hc] at hdates; cases hdates
      | strs xs => rw [hc] at hdates; cases hdates
      | dates ds =>
          dsimp only
          have h3 : PriceShaped ((((df2.setCol "Year"
              (.nums (ds.map fun d => FVal.fin d.year))).setCol "Month"
              (.nums (ds.map fun d => FVal.fin d.month))).setCol "DayOfWeek"
              (.nums (ds.map fun d => FVal.fin d.dayofweek))).setCol "Quarter"
              (.nums (ds.map fun d => FVal.fin d.quarter))) := by
            apply priceShaped_setCol _ _ _ (by decide)
            apply priceShaped_setCol _ _ _ (by decide)
            apply priceShaped_setCol _ _ _ (by decide)
            apply priceShaped_setCol _ _ _ (by decide)
            exact h2
          exact dropPhase_numeric_no_null _ h3

unseal Rat.mul Rat.inv Rat.add Rat.sub in
/-- Concrete run of the dataset-shape theorem: on a two-row price series
with indicators and a classification target, the surviving `Open` column
(all rows dropped by the indicator warm-up) is numeric and null-free. -/
theorem c8_prepared_dataset_numeric_and_null_free_witness :
    ("Open", ColData.nums ([] : List FVal)) ∈ prepareMlDataset id
        [("Date", ColData.dates [⟨2024, 1, 0, 1⟩, ⟨2024, 1, 1, 1⟩]),
         ("Open", ColData.nums [.fin 1, .fin 2]), ("High", ColData.nums [.fin 2, .fin 3]),
         ("Low", ColData.nums [.fin 1, .fin 1]), ("Close", ColData.nums [.fin 2, .fin 3]),
         ("Volume", ColData.nums [.fin 10, .fin 20])]
        "classification" "price_direction" 1 true ∧
    (ColData.nums ([] : List FVal)).isNums = true ∧
    (ColData.nums ([] : List FVal)).hasNull = false := by
  have hps : PriceShaped
      [("Date", ColData.dates [⟨2024, 1, 0, 1⟩, ⟨2024, 1, 1, 1⟩]),
       ("Open", ColData.nums [.fin 1, .fin 2]), ("High", ColData.nums [.fin 2, .fin 3]),
       ("Low", ColData.nums [.fin 1, .fin 1]), ("Close", ColData.nums [.fin 2, .fin 3]),
       ("Volume", ColData.nums [.fin 10, .fin 20])] := by
    intro q hq
    simp only [List.mem_cons, List.not_mem_nil, or_false] at hq
    rcases hq with rfl | rfl | rfl | rfl | rfl | rfl
    · exact ⟨fun _ => rfl, fun hd => absurd rfl hd⟩
    all_goals exact ⟨fun hd => absurd hd (by decide), fun _ => rfl⟩
  have hmem : ("Open", ColData.nums ([] : List FVal)) ∈ prepareMlDataset id
      [("Date", ColData.dates [⟨2024, 1, 0, 1⟩, ⟨2024, 1, 1, 1⟩]),
       ("Open", ColData.nums [.fin 1, .fin 2]), ("High", ColData.nums [.fin 2, .fin 3]),
       ("Low", ColData.nums [.fin 1, .fin 1]), ("Close", ColData.nums [.fin 2, .fin 3]),
       ("Volume", ColData.nums [.fin 10, .fin 20])]
      "classification" "price_direction" 1 true := by decide
  exact ⟨hmem, c8_prepared_dataset_numeric_and_null_free id _ "classification"
    "price_direction" 1 true hps ("Open", ColData.nums []) hmem⟩

/-- Record `x` matches: its task type is the requested one and it
carries the requested metric with value `v`. -/
def MatchesRec (metric taskType : String) (x : String × ModelRecord) (v : ℚ) : Prop :=
  x.2.model_type = taskType ∧ List.lookup metric x.2.performance_metrics = some v

/-- Score `s` is at least as good as `v` under the metric's convention:
at most `v` for the minimized metrics (RMSE/MAE/MSE, case-insensitive),
at least `v` for every other metric. -/
def betterScore (metric : String) (s v : ℚ) : Prop :=
  if lowerIsBetter metric then s ≤ v else v ≤ s

theorem betterScore_refl (metric : String) (s : ℚ) : betterScore metric s s := by
  unfold betterScore; split <;> exact le_refl s

theorem betterScore_trans (metric : String) (a b c : ℚ) (h1 : betterScore metric a b)
    (h2 : betterScore metric b c) : betterScore metric a c := by
  unfold betterScore at h1 h2 ⊢
  split at h1 <;> rename_i hl
  · rw [if_pos hl] at h2 ⊢; exact le_trans h1 h2
  · rw [if_neg hl] at h2 ⊢; exact le_trans h2 h1

/-- The loop body returns `None` exactly when the accumulator was `None`
and the scanned record does not match. -/
theorem bestStep_eq_none_iff (metric taskType : String) (b : Option (String × ℚ))
    (x : String × ModelRecord) :
    bestStep metric taskType b x = none ↔
      b = none ∧ ∀ v, ¬ MatchesRec metric taskType x v := by
  unfold bestStep MatchesRec
  by_cases ht : x.2.model_type = taskType
  · rw [if_neg (by simp [ht])]
    cases hl : List.lookup metric x.2.performance_metrics with
    | none =>
        constructor
        · intro h
          exact ⟨h, fun v hv => Option.noConfusion hv.2⟩
        · exact fun h => h.1
    | some score =>
        cases b with
        | none =>
            constructor
            · intro h
              exact Option.noConfusion h
            · rintro ⟨-, hall⟩
              exact absurd ⟨ht, rfl⟩ (hall score)
        | some bp =>
            rcases bp with ⟨bid, bs⟩
            constructor
            · intro h
              replace h : (if lowerIsBetter metric = true then
                  if score < bs then some (x.1, score) else some (bid, bs)
                else if score > bs then some (x.1, score) else some (bid, bs)) = none := h
              by_cases hlow : lowerIsBetter metric
              · rw [if_pos hlow] at h
                by_cases hc : score < bs
                · rw [if_pos hc] at h; exact Option.noConfusion h
                · rw [if_neg hc] at h; exact Option.noConfusion h
              · rw [if_neg hlow] at h
                by_cases hc : score > bs
                · rw [if_pos hc] at h; exact Option.noConfusion h
                · rw [if_neg hc] at h; exact Option.noConfusion h
            · rintro ⟨h, -⟩
              exact Option.noConfusion h
  · rw [if_pos (by simp [ht])]
    constructor
    · intro h
      exact ⟨h, fun v hv => ht hv.1⟩
    · exact fun h => h.1

/-- What the loop body guarantees when it returns a candidate: the
candidate comes from the accumulator or from the scanned record, and its
score is at least as good as the accumulator's and as the record's. -/
theorem bestStep_some (metric taskType : String) (b : Option (String × ℚ))
    (x : String × ModelRecord) (i : String) (s : ℚ)
    (h : bestStep metric taskType b x = some (i, s)) :
    (b = some (i, s) ∨ (x.1 = i ∧ MatchesRec metric taskType x s)) ∧
    (∀ i0 s0, b = some (i0, s0) → betterScore metric s s0) ∧
    (∀ v, MatchesRec metric taskType x v → betterScore metric s v) := by
  unfold bestStep at h
  by_cases ht : x.2.model_type = taskType
  · rw [if_neg (by simp [ht])] at h
    cases hl : List.lookup metric x.2.performance_metrics with
    | none =>
        rw [hl] at h
        replace h : b = some (i, s) := h
        refine ⟨Or.inl h, fun i0 s0 hb => ?_, fun v hv => ?_⟩
        · rw [h] at hb
          cases hb
          exact betterScore_refl metric s
        · have h2 := hv.2
          rw [hl] at h2
          exact Option.noConfusion h2
    | some score =>
        rw [hl] at h
        have hvs : ∀ v, MatchesRec metric taskType x v → v = score := by
          intro v hv
          have h2 := hv.2
          rw [hl] at h2
          exact (Option.some_injective _ h2.symm)
        cases b with
        | none =>
            replace h : some (x.1, score) = some (i, s) := h
            cases h
            refine ⟨Or.inr ⟨rfl, ht, hl⟩, fun i0 s0 hb => Option.noConfusion hb, fun v hv => ?_⟩
            rw [hvs v hv]
            exact betterScore_refl metric _
        | some bp =>
            rcases bp with ⟨bid, bs⟩
            replace h : (if lowerIsBetter metric = true then
                if score < bs then some (x.1, score) else some (bid, bs)
              else if score > bs then some (x.1, score) else some (bid, bs)) = some (i, s) := h
            by_cases hlow : lowerIsBetter metric
            · rw [if_pos hlow] at h
              by_cases hcmp : score < bs
              · rw [if_pos hcmp] at h
                cases h
                refine ⟨Or.inr ⟨rfl, ht, hl⟩, fun i0 s0 hb => ?_, fun v hv => ?_⟩
                · cases hb
                  unfold betterScore
                  rw [if_pos hlow]
                  exact le_of_lt hcmp
                · rw [hvs v hv]
                  exact betterScore_refl metric _
              · rw [if_neg hcmp] at h
                cases h
                refine ⟨Or.inl rfl, fun i0 s0 hb => ?_, fun v hv => ?_⟩
                · cases hb
                  exact betterScore_refl metric s
                · rw [hvs v hv]
                  unfold betterScore
                  rw [if_pos hlow]
                  exact le_of_not_lt hcmp
            · rw [if_neg hlow] at h
              by_cases hcmp : score > bs
              · rw [if_pos hcmp] at h
                cases h
                refine ⟨Or.inr ⟨rfl, ht, hl⟩, fun i0 s0 hb => ?_, fun v hv => ?_⟩
                · cases hb
                  unfold betterScore
                  rw [if_neg hlow]
                  exact le_of_lt hcmp
                · rw [hvs v hv]
                  exact betterScore_refl metric _
              · rw [if_neg hcmp] at h
                cases h
                refine ⟨Or.inl rfl, fun i0 s0 hb => ?_, fun v hv => ?_⟩
                · cases hb
                  exact betterScore_refl metric s
                · rw [hvs v hv]
                  unfold betterScore
                  rw [if_neg hlow]
                  exact le_of_not_lt hcmp
  · rw [if_pos (by simp [ht])] at h
    refine ⟨Or.inl h, fun i0 s0 hb => ?_, fun v hv => absurd hv.1 ht⟩
    rw [h] at hb
    cases hb
    exact betterScore_refl metric s

/-- Invariant of the `get_best_model` scan, generalized over the
accumulator. -/
theorem bestFold_spec (metric taskType : String) (l : Metadata) : ∀ b : Option (String × ℚ),
    (l.foldl (bestStep metric taskType) b = none ↔
      b = none ∧ ∀ x ∈ l, ∀ v, ¬ MatchesRec metric taskType x v) ∧
    (∀ i s, l.foldl (bestStep metric taskType) b = some (i, s) →
      (b = some (i, s) ∨ ∃ x ∈ l, x.1 = i ∧ MatchesRec metric taskType x s) ∧
      (∀ i0 s0, b = some (i0, s0) → betterScore metric s s0) ∧
      (∀ x ∈ l, ∀ v, MatchesRec metric taskType x v → betterScore metric s v)) := by
  induction l with
  | nil =>
      intro b
      refine ⟨by simp, fun i s h => ?_⟩
      simp only [List.foldl_nil] at h
      refine ⟨Or.inl h, fun i0 s0 hb => ?_, by simp⟩
      rw [h] at hb
      cases hb
      exact betterScore_refl metric s
  | cons x l ih =>
      intro b
      obtain ⟨ihnone, ihsome⟩ := ih (bestStep metric taskType b x)
      constructor
      · rw [List.foldl_cons, ihnone, bestStep_eq_none_iff]
        constructor
        · rintro ⟨⟨hb, hx⟩, hl⟩
          refine ⟨hb, fun y hy v => ?_⟩
          rcases List.mem_cons.mp hy with hy | hy
          · rw [hy]; exact hx v
          · exact hl y hy v
        · rintro ⟨hb, hall⟩
          exact ⟨⟨hb, fun v => hall x (List.mem_cons_self x l) v⟩,
            fun y hy v => hall y (List.mem_cons_of_mem x hy) v⟩
      · intro i s h
        rw [List.foldl_cons] at h
        obtain ⟨hsrc, hbetter, hall⟩ := ihsome i s h
        cases hb' : bestStep metric taskType b x with
        | none =>
            obtain ⟨hbnone, hxnone⟩ := (bestStep_eq_none_iff metric taskType b x).mp hb'
            refine ⟨?_, fun i0 s0 hb => ?_, fun y hy v hv => ?_⟩
            · rcases hsrc with hsrc | ⟨y, hy, hyi, hyv⟩
              · rw [hb'] at hsrc
                cases hsrc
              · exact Or.inr ⟨y, List.mem_cons_of_mem x hy, hyi, hyv⟩
            · rw [hbnone] at hb
              cases hb
            · rcases List.mem_cons.mp hy with hy | hy
              · rw [hy] at hv
                exact absurd hv (hxnone v)
              · exact hall y hy v hv
        | some jt =>
            rcases jt with ⟨j, t⟩
            obtain ⟨hsrc', hb0, hxv⟩ := bestStep_some metric taskType b x j t hb'
            have hst : betterScore metric s t := hbetter j t hb'
            refine ⟨?_, fun i0 s0 hb => ?_, fun y hy v hv => ?_⟩
            · rcases hsrc with hsrc | ⟨y, hy, hyi, hyv⟩
              · rw [hb'] at hsrc
                rcases hsrc' with h2 | h2
                · cases hsrc
                  exact Or.inl h2
                · cases hsrc
                  exact Or.inr ⟨x, List.mem_cons_self x l, h2.1, h2.2⟩
              · exact Or.inr ⟨y, List.mem_cons_of_mem x hy, hyi, hyv⟩
            · exact betterScore_trans metric s t s0 hst (hb0 i0 s0 hb)
            · rcases List.mem_cons.mp hy with hy | hy
              · rw [hy] at hv
                exact betterScore_trans metric s t v hst (hxv v hv)
              · exact hall y hy v hv

/-- C7: `get_best_model` scans exactly the records whose task type
matches; it returns `None` exactly when no matching record carries the
metric, and otherwise returns the id and score of a matching record
whose score is minimal when the metric name is (case-insensitively) one
of RMSE/MAE/MSE and maximal for every other metric name. -/
theorem c7_get_best_model_optimal (md : Metadata) (metric taskType : String) :
    (getBestModel md metric taskType = none ↔
      ∀ x ∈ md, ∀ v, ¬ MatchesRec metric taskType x v) ∧
    (∀ i s, getBestModel md metric taskType = some (i, s) →
      (∃ x ∈ md, x.1 = i ∧ MatchesRec metric taskType x s) ∧
      ∀ x ∈ md, ∀ v, MatchesRec metric taskType x v → betterScore metric s v) := by
  obtain ⟨hnone, hsome⟩ := bestFold_spec metric taskType md none
  unfold getBestModel
  by_cases hmt : md.isEmpty
  · rw [if_pos hmt]
    rw [List.isEmpty_iff] at hmt
    subst hmt
    simp
  · rw [if_neg hmt]
    constructor
    · rw [hnone]
      simp
    · intro i s h
      obtain ⟨hsrc, -, hall⟩ := hsome i s h
      refine ⟨?_, hall⟩
      rcases hsrc with hsrc | hsrc
      · cases hsrc
      · exact hsrc

unseal Rat.mul Rat.inv Rat.add Rat.sub in
/-- Concrete run of the best-model theorem: among RMSE values
`{0.5, 0.2, 0.9}` the id with `0.2` wins and its score is at most every
matching RMSE value; among Accuracy values `{0.8, 0.95, 0.7}` the id
with `0.95` wins. -/
theorem c7_get_best_model_optimal_witness :
    getBestModel [("m1", ⟨"regression", [("RMSE", 1/2)], "p1"⟩),
        ("m2", ⟨"regression", [("RMSE", 1/5)], "p2"⟩),
        ("m3", ⟨"regression", [("RMSE", 9/10)], "p3"⟩)] "RMSE" "regression" =
      some ("m2", 1/5) ∧
    getBestModel [("a1", ⟨"classification", [("Accuracy", 8/10)], "q1"⟩),
        ("a2", ⟨"classification", [("Accuracy", 95/100)], "q2"⟩),
        ("a3", ⟨"classification", [("Accuracy", 7/10)], "q3"⟩)] "Accuracy" "classification" =
      some ("a2", 19/20) ∧
    betterScore "RMSE" (1/5) (1/2) := by
  refine ⟨by decide, by decide, ?_⟩
  exact ((c7_get_best_model_optimal [("m1", ⟨"regression", [("RMSE", 1/2)], "p1"⟩),
      ("m2", ⟨"regression", [("RMSE", 1/5)], "p2"⟩),
      ("m3", ⟨"regression", [("RMSE", 9/10)], "p3"⟩)] "RMSE" "regression").2 "m2" (1/5)
    (by decide)).2 ("m1", ⟨"regression", [("RMSE", 1/2)], "p1"⟩) (by decide) (1/2)
    (by constructor <;> decide)

/-- Concrete run of the storage theorem: a registry whose single
artifact path is missing on disk reports all-zero usage. -/
theorem c10_storage_usage_witness :
    getStorageUsage (fun _ => none) [("m1", ⟨"classification", [], "models/m1.pkl"⟩)] =
      ⟨0, 0, 0⟩ :=
  (c10_storage_usage_counts_existing_and_never_divides_by_zero (fun _ => none)
    [("m1", ⟨"classification", [], "models/m1.pkl"⟩)]).2.2.2.2 (by intro x hx; rfl)

/-- Concrete run of the frame theorem: a one-frame heap is unchanged at
slot 0 by `handle_missing_values` and `prepare_ml_dataset`. -/
theorem c9_transformations_leave_caller_frames_unchanged_witness :
    ((handleMissingValuesH id [[("x", ColData.nums [.fin 1, .nan])]] 0 "mean" none).1).get? 0 =
        some [("x", ColData.nums [.fin 1, .nan])] ∧
    ((prepareMlDatasetH id [[("x", ColData.nums [.fin 1, .nan])]] 0 "classification"
        "price_direction" 1 true).1).get? 0 = some [("x", ColData.nums [.fin 1, .nan])] := by
  have h := c9_transformations_leave_caller_frames_unchanged id id initPreprocessor
    [[("x", ColData.nums [.fin 1, .nan])]] 0 0 "mean" "label" "classification"
    "price_direction" none 1 true (by decide)
  exact ⟨h.1.trans (by decide), (h.2.2.2.2.2).trans (by decide)⟩

end BDA
